import Mathlib

/-!
Verification of the MarketMover Radar storage layer, websocket reconnect
logic and trend-detection indicators, as a shallow embedding of the Python
source (src/database/db_manager.py, src/database/schema.py,
src/data_collectors/websocket_handler.py, src/analysis/trend_detector.py).

Conventions of the embedding:
* A candle/tick payload passed to `store_crypto_data` is modelled by an
  opaque type `α` with decidable equality and a linear (lexicographic)
  order; it stands for the `json.dumps(data)` string that Redis uses as the
  sorted-set member and SQLite stores in the `data_json` column
  (`json.loads` after `json.dumps` is the identity on dict payloads, and
  two payloads are equal as members iff their dumps agree).
* Machine seconds (`int(time.time())`) are modelled as `ℤ`.
* A record returned by `get_crypto_data` is the pair of the decoded payload
  and the `timestamp` value written into it (`data["timestamp"] = score`
  resp. `data["timestamp"] = row["timestamp"]`), so `Entry α := α × ℤ`.
* Python `sorted(xs, key=lambda x: x["timestamp"])` is a stable ascending
  sort; `List.insertionSort` of Mathlib is stable, so it is the model.
* `limit` is modelled as a natural number and the theorems about reads use
  `1 ≤ limit`; `zrevrange key 0 (limit-1)` has Redis negative-index
  semantics for `limit ≤ 0`, which is outside the modelled range.
* Numeric candle fields are modelled as `ℚ`; where the Python code takes a
  floating-point square root (standard deviation, Pearson correlation) the
  model takes `Real.sqrt` of the exact rational variance.
-/

namespace Store

/-- A record as returned by `get_crypto_data`: the decoded payload together
with the `timestamp` field that the reader writes into it. -/
abbrev Entry (α : Type) := α × ℤ

/-- Ascending-timestamp comparison used by the final
`sorted(data_list, key=lambda x: x["timestamp"])` of both backends of
`DatabaseManager.get_crypto_data` (db_manager.py lines 199 and 220). -/
def tsLe {α : Type} (a b : Entry α) : Prop := a.2 ≤ b.2

instance {α : Type} : DecidableRel (tsLe (α := α)) :=
  fun a b => inferInstanceAs (Decidable (a.2 ≤ b.2))

/-- Descending-timestamp comparison on entries; proof-side companion of
`zrevLt` on lists whose timestamps are pairwise distinct. -/
def tsGe {α : Type} (a b : Entry α) : Prop := b.2 ≤ a.2

instance {α : Type} : DecidableRel (tsGe (α := α)) :=
  fun a b => inferInstanceAs (Decidable (b.2 ≤ a.2))

/-- Model of Python `sorted(data_list, key=lambda x: x["timestamp"])`:
a stable ascending sort by the timestamp field. -/
def py_sorted_by_timestamp {α : Type} (l : List (Entry α)) : List (Entry α) :=
  l.insertionSort tsLe

/-- The order in which `zrevrange` enumerates a Redis sorted set:
descending score, and on equal scores descending lexicographic member
(the reverse of the ascending score/member order of the set). -/
def zrevLt {α : Type} [LinearOrder α] (a b : Entry α) : Prop :=
  b.2 < a.2 ∨ (a.2 = b.2 ∧ b.1 ≤ a.1)

instance {α : Type} [LinearOrder α] : DecidableRel (zrevLt (α := α)) :=
  fun a b => inferInstanceAs (Decidable (b.2 < a.2 ∨ (a.2 = b.2 ∧ b.1 ≤ a.1)))

/-- Model of `ZADD key {member: score}` on the sorted set: if the member is
already present its score is updated, otherwise the member is added. -/
def zadd {α : Type} [DecidableEq α] (z : List (Entry α)) (member : α) (score : ℤ) :
    List (Entry α) :=
  if ∃ e ∈ z, e.1 = member then
    z.map (fun e => if e.1 = member then (member, score) else e)
  else
    z ++ [(member, score)]

/-- The Redis state behind one series key `ts:crypto:{symbol}:{interval}`:
the sorted set of (member, score) pairs plus the expiry deadline of the key
set by `EXPIRE` (the key is gone once `expireAt ≤ now`). -/
structure RedisKey (α : Type) where
  zset : List (Entry α)
  expireAt : ℤ

/-- A series key never stored to: no members, and already expired. -/
def RedisKey.empty {α : Type} : RedisKey α := ⟨[], 0⟩

/-- The `ttl_multiplier` table of `DatabaseManager.store_crypto_data`
(db_manager.py lines 77-85), values exactly as passed to `EXPIRE`
(in seconds), default `60 * 24 * 7`. -/
def ttl_multiplier (interval : String) : ℤ :=
  match interval with
  | "1m" => 60 * 24
  | "5m" => 60 * 24 * 3
  | "15m" => 60 * 24 * 7
  | "1h" => 60 * 24 * 30
  | "4h" => 60 * 24 * 90
  | "1d" => 60 * 24 * 365
  | _ => 60 * 24 * 7

/-- Redis branch of `DatabaseManager.store_crypto_data` (db_manager.py
lines 73-91) restricted to the series key that `get_crypto_data` reads
back: `ZADD ts_key {json.dumps(data): timestamp}` followed by
`EXPIRE ts_key ttl`. An already-expired key is deleted on access, so its
members are dropped before the add; the hash `crypto:{symbol}:{interval}`
is also written by the source but never read by `get_crypto_data` and is
not part of the model. `now` is `int(time.time())` at the write. -/
def redis_store_crypto_data {α : Type} [DecidableEq α] (k : RedisKey α)
    (data : α) (now : ℤ) (interval : String) : RedisKey α :=
  let base := if now < k.expireAt then k.zset else []
  { zset := zadd base data now, expireAt := now + ttl_multiplier interval }

/-- Redis branch of `DatabaseManager.get_crypto_data` (db_manager.py lines
186-199): `zrevrange ts_key 0 (limit-1) withscores` on a live key, decode
each member and overwrite its `timestamp` with the score, then sort
ascending by timestamp. An expired (or never written) key yields `[]`. -/
def redis_get_crypto_data {α : Type} [LinearOrder α] (k : RedisKey α)
    (now : ℤ) (limit : ℕ) : List (Entry α) :=
  if now < k.expireAt then
    py_sorted_by_timestamp ((k.zset.insertionSort zrevLt).take limit)
  else []

/-- One row of the SQLite `crypto_data` table (schema.py lines 17-30).
The typed columns `price`, `volume`, `high`, `low` are extracted copies of
payload fields that `get_crypto_data` never reads back (it decodes
`data_json`), so they are not part of the model. -/
structure Row (α : Type) where
  symbol : String
  interval : String
  ts : ℤ
  payload : α
deriving DecidableEq

/-- The `ORDER BY timestamp DESC` comparison of the SQLite read. -/
def rowGe {α : Type} (a b : Row α) : Prop := b.ts ≤ a.ts

instance {α : Type} : DecidableRel (rowGe (α := α)) :=
  fun a b => inferInstanceAs (Decidable (b.ts ≤ a.ts))

/-- SQLite branch of `DatabaseManager.store_crypto_data` (db_manager.py
lines 92-111): a plain `INSERT` into `crypto_data`; the
`UNIQUE(symbol, interval, timestamp)` constraint of the schema makes the
insert raise `IntegrityError` (modelled as `Except.error`) when a row with
the same natural key already exists. -/
def sqlite_store_crypto_data {α : Type} (T : List (Row α))
    (symbol interval : String) (data : α) (now : ℤ) : Except Unit (List (Row α)) :=
  if ∃ r ∈ T, r.symbol = symbol ∧ r.interval = interval ∧ r.ts = now then
    .error ()
  else
    .ok (T ++ [⟨symbol, interval, now, data⟩])

/-- SQLite branch of `DatabaseManager.get_crypto_data` (db_manager.py lines
200-220): select the rows of the (symbol, interval) key ordered by
timestamp descending, keep `limit` of them, decode `data_json` and
overwrite `timestamp` from the row, then sort ascending by timestamp.
`ORDER BY timestamp DESC` leaves the order of equal timestamps
unspecified; the model uses a stable descending sort, one admissible
outcome, and equal timestamps cannot occur within one key on tables
reachable through `sqlite_store_crypto_data`. The read does not depend on
the clock: SQLite rows have no expiry. -/
def sqlite_get_crypto_data {α : Type} (T : List (Row α))
    (symbol interval : String) (limit : ℕ) : List (Entry α) :=
  let rows := T.filter (fun r => decide (r.symbol = symbol ∧ r.interval = interval))
  let top := (rows.insertionSort rowGe).take limit
  py_sorted_by_timestamp (top.map (fun r => (r.payload, r.ts)))

/-- A sequence of `store_crypto_data` calls for one (symbol, interval) key
executed against the Redis backend, each element being the payload and the
arrival second of one call. -/
def redis_run_stores {α : Type} [DecidableEq α] (interval : String)
    (stores : List (α × ℤ)) : RedisKey α :=
  stores.foldl (fun k pt => redis_store_crypto_data k pt.1 pt.2 interval) RedisKey.empty

/-- The same sequence of `store_crypto_data` calls executed against the
SQLite backend, starting from an empty table; a uniqueness violation
aborts the run with `Except.error`. -/
def sqlite_run_stores {α : Type} (symbol interval : String)
    (stores : List (α × ℤ)) : Except Unit (List (Row α)) :=
  stores.foldl
    (fun acc pt => acc.bind (fun T => sqlite_store_crypto_data T symbol interval pt.1 pt.2))
    (.ok [])

/-- Well-formedness of the SQLite table: the `UNIQUE(symbol, interval,
timestamp)` constraint holds, i.e. no two rows share the natural key. -/
def SqliteWf {α : Type} (T : List (Row α)) : Prop :=
  T.Pairwise (fun r₁ r₂ => r₁.symbol = r₂.symbol → r₁.interval = r₂.interval → r₁.ts ≠ r₂.ts)

/-- Invariant of a Redis sorted set: every member occurs at most once
(scores are an attribute of the member). -/
def NodupMembers {α : Type} (z : List (Entry α)) : Prop :=
  (z.map Prod.fst).Nodup

instance zrevLt_total {α : Type} [LinearOrder α] : IsTotal (Entry α) zrevLt := by
  constructor
  intro a b
  rcases lt_trichotomy a.2 b.2 with h | h | h
  · exact Or.inr (Or.inl h)
  · rcases le_total a.1 b.1 with h1 | h1
    · exact Or.inr (Or.inr ⟨h.symm, h1⟩)
    · exact Or.inl (Or.inr ⟨h, h1⟩)
  · exact Or.inl (Or.inl h)

instance zrevLt_trans {α : Type} [LinearOrder α] : IsTrans (Entry α) zrevLt := by
  constructor
  intro a b c hab hbc
  rcases hab with h1 | h1 <;> rcases hbc with h2 | h2
  · exact Or.inl (h2.trans h1)
  · exact Or.inl (by rw [← h2.1]; exact h1)
  · exact Or.inl (by rw [h1.1]; exact h2)
  · exact Or.inr ⟨h1.1.trans h2.1, h2.2.trans h1.2⟩

instance rowGe_total {α : Type} : IsTotal (Row α) rowGe :=
  ⟨fun a b => (le_total b.ts a.ts).imp (fun h => h) (fun h => h)⟩

instance rowGe_trans {α : Type} : IsTrans (Row α) rowGe :=
  ⟨fun _ _ _ hab hbc => le_trans hbc hab⟩

end Store

namespace WS

/-- Position of the `_on_close_wrapper` handler of one subscription
(websocket_handler.py lines 129-141) in its reconnect loop:
`beforeCheck` is just before the stop-signal test of line 137, `sleeping`
is inside `time.sleep(interval)` of line 140, and `finished` is after the
handler returned without scheduling a reconnect. -/
inductive Phase where
  | beforeCheck
  | sleeping
  | finished
deriving DecidableEq

/-- State of one named subscription whose connection has just closed:
the stop event of `close_connection` (line 153), the handler position,
and the number of `_start_connection_thread` calls made so far
(connection attempts). -/
structure SubState where
  stopRequested : Bool
  phase : Phase
  attempts : ℕ
deriving DecidableEq

/-- One atomic step of the close-handler. From `beforeCheck` the handler
evaluates `self.stop_events[name].is_set()` (line 137): if the stop event
is set it returns, otherwise it enters the sleep. From `sleeping` the
sleep elapses and `_start_connection_thread` runs unconditionally
(line 141) — there is no second stop-signal test after the sleep — after
which the new connection is live; its own later close re-enters the
wrapper at `beforeCheck`. -/
def handlerStep (s : SubState) : SubState :=
  match s.phase with
  | .beforeCheck =>
      if s.stopRequested then { s with phase := .finished }
      else { s with phase := .sleeping }
  | .sleeping => { s with phase := .beforeCheck, attempts := s.attempts + 1 }
  | .finished => s

/-- Effect of `close_connection(name)` (websocket_handler.py lines
143-163) on the subscription state: `self.stop_events[name].set()`. The
guard `name in self.connections` of the source holds throughout the
modelled scenario, because `_on_close_wrapper` never removes the entry
(only `close_connection` itself pops it, after setting the event). The
concurrent handler is unaffected until it next reads the event. -/
def close_connection (s : SubState) : SubState :=
  { s with stopRequested := true }

/-- An interleaving event: either the handler advances one atomic step, or
some other thread calls `close_connection`. -/
inductive Ev where
  | tick
  | close
deriving DecidableEq

/-- Run an interleaving of handler steps and close calls. -/
def run (s : SubState) (evs : List Ev) : SubState :=
  evs.foldl (fun st e => match e with | .tick => handlerStep st | .close => close_connection st) s

end WS

namespace TrendDetector

/-- One OHLCV record as consumed by the `TrendDetector` functions; only
the fields the functions read (`close`, `high`, `low`, `volume`,
`timestamp`) are modelled. -/
structure Candle where
  close : ℚ
  high : ℚ
  low : ℚ
  volume : ℚ
  timestamp : ℚ
deriving DecidableEq

/-- A value of one of the Python result dicts: either a string
classification or a number over the field `K`. -/
inductive Val (K : Type) where
  | str : String → Val K
  | num : K → Val K
deriving DecidableEq

/-- Arithmetic mean, Python `series.mean()`; callers guard emptiness. -/
def mean (l : List ℚ) : ℚ := l.sum / l.length

/-- Maximum of a list, Python `series.max()`; callers guard emptiness. -/
def maxD (l : List ℚ) : ℚ :=
  match l with
  | [] => 0
  | x :: xs => xs.foldl max x

/-- Minimum of a list, Python `series.min()`; callers guard emptiness. -/
def minD (l : List ℚ) : ℚ :=
  match l with
  | [] => 0
  | x :: xs => xs.foldl min x

/-- The value of `series.rolling(window=w).mean()` at position `j`
(0-based): `none` models the NaN of an incomplete window. -/
def smaAt (l : List ℚ) (w : ℕ) (j : ℕ) : Option ℚ :=
  if j + 1 < w ∨ l.length ≤ j then none
  else some ((((l.take (j + 1)).drop (j + 1 - w)).sum) / w)

/-- `TrendDetector.detect_price_trends` (trend_detector.py lines 17-83).
The trend decision compares `sma.iloc[-1]` with `sma.iloc[-window]`; when
the latter is NaN (fewer than `2*window - 1` rows) both float comparisons
are false and the `else` branch gives `sideways` with strength 0.1.
Support and resistance come from the trailing 20 rows (`df.tail(20)`). -/
def detect_price_trends (data : List Candle) (window : ℕ) : List (String × Val ℚ) :=
  if data = [] ∨ data.length < window then
    [("trend", .str "unknown"), ("strength", .num 0),
     ("support", .num 0), ("resistance", .num 0)]
  else
    let n := data.length
    let closes := data.map (fun c => c.close)
    let tsp : String × ℚ :=
      if window < n then
        match smaAt closes window (n - window) with
        | some prev_sma =>
          let last_sma := ((closes.drop (n - window)).sum) / window
          if prev_sma < last_sma then
            ("uptrend", if 0 < prev_sma then min 1 ((last_sma - prev_sma) / prev_sma * 5) else 1/2)
          else if last_sma < prev_sma then
            ("downtrend", if 0 < prev_sma then min 1 ((prev_sma - last_sma) / prev_sma * 5) else 1/2)
          else ("sideways", 1/10)
        | none => ("sideways", 1/10)
      else ("unknown", 0)
    let recent := data.drop (n - 20)
    let resistance := maxD (recent.map (fun c => c.high))
    let support := minD (recent.map (fun c => c.low))
    let last_close := closes.getLastD 0
    let resistance_distance :=
      if 0 < last_close then (resistance - last_close) / last_close * 100 else 0
    let support_distance :=
      if 0 < last_close then (last_close - support) / last_close * 100 else 0
    [("trend", .str tsp.1), ("strength", .num tsp.2), ("last_close", .num last_close),
     ("support", .num support), ("resistance", .num resistance),
     ("support_distance", .num support_distance),
     ("resistance_distance", .num resistance_distance)]

/-- The pairs `(abs(Δclose)/close_prev, volume)` collected by the loop of
`detect_volume_trends` (trend_detector.py lines 124-133); an index with
non-positive previous close contributes nothing to either list. -/
def priceVolumePairs : List ℚ → List ℚ → List (ℚ × ℚ)
  | cPrev :: c :: cs, _vPrev :: v :: vs =>
      (if 0 < cPrev then [((|c - cPrev|) / cPrev, v)] else []) ++
        priceVolumePairs (c :: cs) (v :: vs)
  | _, _ => []

/-- Sum of centered products `Σ (x - mean xs) * (y - mean ys)` used by the
Pearson correlation of `np.corrcoef`. -/
def centeredDot (xs ys : List ℚ) : ℚ :=
  ((xs.zip ys).map (fun p => (p.1 - mean xs) * (p.2 - mean ys))).sum

/-- Pearson correlation `np.corrcoef(x, y)[0, 1]` with the NaN of a
degenerate variance mapped to 0 as in trend_detector.py lines 136-141. -/
noncomputable def pearson (pairs : List (ℚ × ℚ)) : ℝ :=
  let xs := pairs.map (fun p => p.1)
  let ys := pairs.map (fun p => p.2)
  if centeredDot xs xs * centeredDot ys ys = 0 then 0
  else (centeredDot xs ys : ℝ) / Real.sqrt ((centeredDot xs xs * centeredDot ys ys : ℚ) : ℝ)

/-- `TrendDetector.detect_volume_trends` (trend_detector.py lines 85-148).
The model always has a `volume` field, so the `'volume' not in data[0]`
branch of the guard cannot fire. A NaN `volume_sma.iloc[-window]` (fewer
than `2*window - 1` rows) makes both threshold comparisons false, giving
`stable` with strength 0.1. -/
noncomputable def detect_volume_trends (data : List Candle) (window : ℕ) :
    List (String × Val ℝ) :=
  if data = [] ∨ data.length < window then
    [("trend", .str "unknown"), ("strength", .num 0)]
  else
    let n := data.length
    let vols := data.map (fun c => c.volume)
    let closes := data.map (fun c => c.close)
    let tsp : String × ℚ :=
      if window < n then
        match smaAt vols window (n - window) with
        | some prev =>
          let lastA := ((vols.drop (n - window)).sum) / window
          if prev * (6/5) < lastA then
            ("increasing", if 0 < prev then min 1 ((lastA - prev) / prev) else 1/2)
          else if lastA < prev * (4/5) then
            ("decreasing", if 0 < prev then min 1 ((prev - lastA) / prev) else 1/2)
          else ("stable", 1/10)
        | none => ("stable", 1/10)
      else ("unknown", 0)
    let pairs := priceVolumePairs closes vols
    let corr : ℝ := if 5 < pairs.length then pearson pairs else 0
    [("trend", .str tsp.1), ("strength", .num (tsp.2 : ℝ)),
     ("avg_volume", .num ((mean vols : ℚ) : ℝ)),
     ("price_volume_correlation", .num corr)]

/-- Ascending-timestamp order of `df.sort_values('timestamp')` in
`detect_momentum`. pandas uses an unstable quicksort, so the order of
equal timestamps is unspecified; the stable model order is one admissible
outcome and no claim depends on the order of ties. -/
def candleTsLe (a b : Candle) : Prop := a.timestamp ≤ b.timestamp

instance : DecidableRel candleTsLe :=
  fun a b => inferInstanceAs (Decidable (a.timestamp ≤ b.timestamp))

/-- The per-period gains `delta.where(delta > 0, 0)` of `detect_momentum`:
index 0 carries the 0 that the NaN of `diff()` turns into under `where`
(`NaN > 0` is false). -/
def gainsOf (closes : List ℚ) : List ℚ :=
  0 :: (List.zipWith (fun a b => a - b) closes.tail closes).map (fun d => max d 0)

/-- The per-period losses `-delta.where(delta < 0, 0)`. -/
def lossesOf (closes : List ℚ) : List ℚ :=
  0 :: (List.zipWith (fun a b => a - b) closes.tail closes).map (fun d => max (-d) 0)

/-- The RSI series value at position `pos` (trend_detector.py lines
167-176): 14-period rolling means of gains and losses, then
`100 - 100 / (1 + avg_gain / avg_loss)` in floats. `none` models NaN
(incomplete window, or the 0/0 of a flat window); a zero average loss
with positive average gain gives `rs = inf` and hence RSI 100. -/
def rsiAt (closes : List ℚ) (pos : ℕ) : Option ℚ :=
  if pos < 13 ∨ closes.length ≤ pos then none
  else
    let g := (((gainsOf closes).drop (pos - 13)).take 14).sum / 14
    let l := (((lossesOf closes).drop (pos - 13)).take 14).sum / 14
    if l = 0 then (if g = 0 then none else some 100)
    else some (100 - 100 / (1 + g / l))

/-- `series.ewm(span, adjust=False).mean()` after the first element:
`e_i = a * x_i + (1 - a) * e_{i-1}`. -/
def emaGo (a : ℚ) (prev : ℚ) : List ℚ → List ℚ
  | [] => []
  | x :: xs => (a * x + (1 - a) * prev) :: emaGo a (a * x + (1 - a) * prev) xs

/-- `series.ewm(span=s, adjust=False).mean()` with `a = 2 / (s + 1)` and
`e_0 = x_0`. -/
def ema (span : ℕ) (l : List ℚ) : List ℚ :=
  match l with
  | [] => []
  | x :: xs => x :: emaGo (2 / (span + 1)) x xs

/-- `TrendDetector.detect_momentum` (trend_detector.py lines 150-218).
The input is first sorted by timestamp; RSI, the 10-period momentum, MACD
(12/26 EMAs with a 9-period signal) and the two classifications are
computed positionally on the sorted closes. Comparisons against a NaN RSI
value are false in Python, which the `Option` matches reproduce. -/
def detect_momentum (data : List Candle) : List (String × Val ℚ) :=
  if data = [] ∨ data.length < 14 then
    [("rsi", .num 0), ("momentum", .num 0)]
  else
    let sorted := data.insertionSort candleTsLe
    let closes := sorted.map (fun c => c.close)
    let n := closes.length
    let rsiL := rsiAt closes (n - 1)
    let rsiP := rsiAt closes (n - 2)
    let cLast := closes.getLastD 0
    let cRef := closes.getD (n - 10) 0
    let momentum := if 0 < cRef then (cLast - cRef) / cRef else 0
    let macdList := List.zipWith (fun a b => a - b) (ema 12 closes) (ema 26 closes)
    let signalList := ema 9 macdList
    let m1 := macdList.getLastD 0
    let s1 := signalList.getLastD 0
    let m2 := macdList.getD (n - 2) 0
    let s2 := signalList.getD (n - 2) 0
    let momentum_trend :=
      match rsiL, rsiP with
      | some r, some p =>
        if 70 < r then "overbought" else if r < 30 then "oversold"
        else if 50 < r ∧ p ≤ 50 then "bullish_crossover"
        else if r < 50 ∧ 50 ≤ p then "bearish_crossover" else "neutral"
      | some r, none =>
        if 70 < r then "overbought" else if r < 30 then "oversold" else "neutral"
      | none, _ => "neutral"
    let macd_trend :=
      if s1 < m1 ∧ m2 ≤ s2 then "bullish_crossover"
      else if m1 < s1 ∧ s2 ≤ m2 then "bearish_crossover"
      else if 0 < m1 then "bullish" else if m1 < 0 then "bearish" else "neutral"
    [("rsi", .num (match rsiL with | some r => r | none => 50)),
     ("macd", .num m1), ("macd_signal", .num s1), ("macd_histogram", .num (m1 - s1)),
     ("momentum", .num momentum),
     ("momentum_trend", .str momentum_trend), ("macd_trend", .str macd_trend)]

/-- The list built by `close.pct_change().dropna()`: one relative change
per consecutive pair. A pair whose first component is 0 is dropped (the
0/0 NaN case); the source in floats would keep an infinite ratio for a
`0 → c` move, a case no claim exercises. -/
def pctChanges : List ℚ → List ℚ
  | cPrev :: c :: cs =>
      (if cPrev = 0 then [] else [(c - cPrev) / cPrev]) ++ pctChanges (c :: cs)
  | _ => []

/-- Sample variance with `ddof = 1` (the pandas `std()` default), as an
exact rational; callers guard `2 ≤ length`. -/
def sampleVar (l : List ℚ) : ℚ :=
  ((l.map (fun x => (x - mean l) * (x - mean l))).sum) / ((l.length : ℚ) - 1)

/-- The true-range column of `detect_volatility` after `c0`
(trend_detector.py lines 241-245): `max(high - low, |high - prev_close|,
|low - prev_close|)`. -/
def trGo (prev : Candle) : List Candle → List ℚ
  | [] => []
  | c :: cs =>
      max (c.high - c.low) (max (|c.high - prev.close|) (|c.low - prev.close|)) :: trGo c cs

/-- The full true-range column: at index 0 the shifted close is NaN, so
the row maximum (which skips NaN) is `high - low`. -/
def trList : List Candle → List ℚ
  | [] => []
  | c0 :: rest => (c0.high - c0.low) :: trGo c0 rest

/-- The 20-period moving average `sma20` at the last position; callers
guard `20 ≤ length`. -/
def sma20v (closes : List ℚ) : ℚ := ((closes.drop (closes.length - 20)).sum) / 20

/-- The square of the 20-period rolling standard deviation at the last
position (`std20 ** 2`), an exact rational with `ddof = 1`; callers guard
`20 ≤ length`. -/
def var20 (closes : List ℚ) : ℚ :=
  (((closes.drop (closes.length - 20)).map
    (fun x => (x - sma20v closes) * (x - sma20v closes))).sum) / 19

/-- The `bb_position` of `detect_volatility` (trend_detector.py lines
255-257): `(last_close - lower_band) / (upper_band - lower_band)` when the
band width is positive, else 0.5. `upper_band - lower_band = 4 * std20`,
and `(upper_band - lower_band) > 0` iff `0 < var20` (with fewer than 20
rows both bands are NaN and the float comparison is false). -/
noncomputable def bollingerPosition (closes : List ℚ) : ℝ :=
  if closes.length < 20 then 0.5
  else if 0 < var20 closes then
    ((closes.getLastD 0 : ℝ) -
        ((sma20v closes : ℝ) - 2 * Real.sqrt ((var20 closes : ℚ) : ℝ))) /
      (4 * Real.sqrt ((var20 closes : ℚ) : ℝ))
  else 0.5

/-- The `bollinger_width` of `detect_volatility`:
`(upper_band - lower_band) / sma20` when `sma20 > 0`, else 0 (also 0 when
`sma20` is NaN, i.e. fewer than 20 rows). -/
noncomputable def bollingerWidth (closes : List ℚ) : ℝ :=
  if closes.length < 20 then 0
  else if 0 < sma20v closes then
    (4 * Real.sqrt ((var20 closes : ℚ) : ℝ)) / (sma20v closes : ℝ)
  else 0

/-- `TrendDetector.detect_volatility` (trend_detector.py lines 220-275).
The annualized volatility takes the real square root of the exact sample
variance of the returns (`std() * 252 ** 0.5`); it is NaN (reported as 0)
when fewer than two returns exist. `atr` is NaN (reported as 0) when
fewer than 14 rows exist. `older_vol` falls back to `recent_vol` when
fewer than 19 rows exist. -/
noncomputable def detect_volatility (data : List Candle) : List (String × Val ℝ) :=
  if data = [] ∨ data.length < 5 then
    [("volatility", .num 0), ("atr", .num 0)]
  else
    let n := data.length
    let closes := data.map (fun c => c.close)
    let rets := pctChanges closes
    let volatility : ℝ :=
      if 2 ≤ rets.length then Real.sqrt ((sampleVar rets : ℚ) : ℝ) * Real.sqrt 252 else 0
    let trs := trList data
    let atr : ℚ := if 14 ≤ n then ((trs.drop (n - 14)).sum) / 14 else 0
    let recent_vol := ((trs.drop (n - 5)).sum) / 5
    let older_vol :=
      if 19 ≤ n then (((trs.take (n - 4)).drop (n - 18)).sum) / 14 else recent_vol
    let vol_trend :=
      if older_vol * (6/5) < recent_vol then "increasing"
      else if recent_vol < older_vol * (4/5) then "decreasing" else "stable"
    [("volatility", .num volatility), ("atr", .num (atr : ℝ)),
     ("bollinger_width", .num (bollingerWidth closes)),
     ("bollinger_position", .num (bollingerPosition closes)),
     ("volatility_trend", .str vol_trend)]

end TrendDetector

namespace Store

theorem py_sorted_by_timestamp_sorted {α : Type} (l : List (Entry α)) :
    (py_sorted_by_timestamp l).Sorted tsLe := by
  haveI : IsTotal (Entry α) tsLe := ⟨fun a b => le_total a.2 b.2⟩
  haveI : IsTrans (Entry α) tsLe := ⟨fun a b c hab hbc => le_trans hab hbc⟩
  exact List.sorted_insertionSort tsLe l

end Store

/-- C2: for every symbol, interval and limit, and for every prior store
state (hence every sequence of candle writes in any arrival order), the
list returned by `get_crypto_data` is sorted ascending by the timestamp
field of its elements, on both the Redis and the SQLite backend. -/
theorem get_crypto_data_sorted_ascending {α : Type} [LinearOrder α]
    (k : Store.RedisKey α) (now : ℤ) (T : List (Store.Row α))
    (symbol interval : String) (limit : ℕ) :
    (Store.redis_get_crypto_data k now limit).Sorted Store.tsLe ∧
      (Store.sqlite_get_crypto_data T symbol interval limit).Sorted Store.tsLe := by
  constructor
  · unfold Store.redis_get_crypto_data
    split
    · exact Store.py_sorted_by_timestamp_sorted _
    · exact List.sorted_nil
  · exact Store.py_sorted_by_timestamp_sorted _

namespace WS

theorem run_attempts_of_stopped {evs : List Ev} :
    ∀ {s : SubState}, s.stopRequested = true → s.phase ≠ Phase.sleeping →
      (run s evs).attempts = s.attempts := by
  induction evs with
  | nil => intro s _ _; rfl
  | cons e evs ih =>
    intro s hstop hph
    cases e with
    | tick =>
      show (run (handlerStep s) evs).attempts = s.attempts
      cases hp : s.phase with
      | beforeCheck =>
        have hstep : handlerStep s = { s with phase := Phase.finished } := by
          unfold handlerStep; rw [hp]; simp [hstop]
        rw [hstep, ih (by simpa using hstop) (by simp)]
      | sleeping => exact absurd hp hph
      | finished =>
        have hstep : handlerStep s = s := by unfold handlerStep; rw [hp]
        rw [hstep, ih hstop hph]
    | close =>
      show (run (close_connection s) evs).attempts = s.attempts
      exact ih (by simp [close_connection]) (by simpa [close_connection] using hph)

theorem run_attempts_of_stopped_sleeping {evs : List Ev} :
    ∀ {s : SubState}, s.stopRequested = true → s.phase = Phase.sleeping →
      (run s evs).attempts ≤ s.attempts + 1 := by
  induction evs with
  | nil => intro s _ _; exact Nat.le_succ _
  | cons e evs ih =>
    intro s hstop hph
    cases e with
    | tick =>
      show (run (handlerStep s) evs).attempts ≤ s.attempts + 1
      have hstep : handlerStep s =
          { s with phase := Phase.beforeCheck, attempts := s.attempts + 1 } := by
        unfold handlerStep; rw [hph]
      rw [hstep, run_attempts_of_stopped (by simpa using hstop) (by simp)]
    | close =>
      show (run (close_connection s) evs).attempts ≤ s.attempts + 1
      exact ih (by simp [close_connection]) (by simpa [close_connection] using hph)

end WS

/-- C5 counterexample: the claim fails on the code. Start from a
subscription whose connection has just closed and that was not yet asked
to stop. The handler passes the stop check of line 137 and enters the
sleep; `close_connection` then sets the stop event while the handler is
sleeping; when the sleep elapses the handler calls
`_start_connection_thread` without re-checking the stop event, so one
connection attempt is made after the close was issued. -/
theorem close_during_reconnect_wait_is_not_observed :
    (WS.run ⟨false, WS.Phase.beforeCheck, 0⟩ [WS.Ev.tick, WS.Ev.close]).stopRequested = true ∧
    (WS.run ⟨false, WS.Phase.beforeCheck, 0⟩ [WS.Ev.tick, WS.Ev.close]).attempts = 0 ∧
    (WS.run ⟨false, WS.Phase.beforeCheck, 0⟩ [WS.Ev.tick, WS.Ev.close, WS.Ev.tick]).attempts = 1 := by
  decide

/-- C5 amended: a close observed at the stop check that precedes the
reconnect wait suppresses every further connection attempt; but a close
that arrives while the handler is already inside the reconnect sleep is
not observed again — exactly one further connection attempt occurs when
the sleep elapses, and only the following close of that connection finds
the stop event set and terminates the loop. -/
theorem close_suppresses_reconnect_only_before_wait :
    (∀ (s : WS.SubState) (evs : List WS.Ev),
        s.stopRequested = true → s.phase ≠ WS.Phase.sleeping →
        (WS.run s evs).attempts = s.attempts) ∧
    (∀ (s : WS.SubState) (evs : List WS.Ev),
        s.stopRequested = true → s.phase = WS.Phase.sleeping →
        (WS.handlerStep s).attempts = s.attempts + 1 ∧
          (WS.run s evs).attempts ≤ s.attempts + 1) := by
  constructor
  · intro s evs hstop hph
    exact WS.run_attempts_of_stopped hstop hph
  · intro s evs hstop hph
    constructor
    · unfold WS.handlerStep; rw [hph]
    · exact WS.run_attempts_of_stopped_sleeping hstop hph

/-- C5 amended, witness at a concrete stopped state: a stop observed at
the check suppresses all attempts over two further steps, and a stop
already sleeping yields the one extra attempt. -/
theorem close_suppresses_reconnect_only_before_wait_witness :
    (WS.run ⟨true, WS.Phase.beforeCheck, 0⟩ [WS.Ev.tick, WS.Ev.tick]).attempts = 0 ∧
    (WS.handlerStep ⟨true, WS.Phase.sleeping, 0⟩).attempts = 0 + 1 :=
  ⟨close_suppresses_reconnect_only_before_wait.1 ⟨true, WS.Phase.beforeCheck, 0⟩
      [WS.Ev.tick, WS.Ev.tick] rfl (by decide),
    (close_suppresses_reconnect_only_before_wait.2 ⟨true, WS.Phase.sleeping, 0⟩ [] rfl rfl).1⟩

/-- C6 counterexample: on an input shorter than the lookback window,
`detect_momentum` returns `{"rsi": 0, "momentum": 0}` — a fully defined
neutral result, but one that carries no "unknown" classification in any
field, contrary to the claim that every indicator returns an explicit
"unknown" classification on short input. -/
theorem short_momentum_lacks_unknown_marker :
    TrendDetector.detect_momentum [] =
      [("rsi", TrendDetector.Val.num 0), ("momentum", TrendDetector.Val.num 0)] ∧
    ∀ kv ∈ TrendDetector.detect_momentum [], kv.2 ≠ TrendDetector.Val.str "unknown" := by
  decide

/-- C6 amended: on input shorter than the required lookback window every
indicator function returns a fully defined neutral result without
raising; `detect_price_trends` and `detect_volume_trends` carry the
explicit classification `trend = "unknown"` with strength 0, while
`detect_momentum` returns `{rsi: 0, momentum: 0}` and `detect_volatility`
returns `{volatility: 0, atr: 0}` — neutral zero-valued results without
an "unknown" marker. -/
theorem short_input_neutral_results :
    (∀ (data : List TrendDetector.Candle) (window : ℕ), data.length < window →
        TrendDetector.detect_price_trends data window =
          [("trend", .str "unknown"), ("strength", .num 0),
           ("support", .num 0), ("resistance", .num 0)]) ∧
    (∀ (data : List TrendDetector.Candle) (window : ℕ), data.length < window →
        TrendDetector.detect_volume_trends data window =
          [("trend", .str "unknown"), ("strength", .num 0)]) ∧
    (∀ (data : List TrendDetector.Candle), data.length < 14 →
        TrendDetector.detect_momentum data =
          [("rsi", .num 0), ("momentum", .num 0)]) ∧
    (∀ (data : List TrendDetector.Candle), data.length < 5 →
        TrendDetector.detect_volatility data =
          [("volatility", .num 0), ("atr", .num 0)]) := by
  refine ⟨?_, ?_, ?_, ?_⟩
  · intro data window h
    unfold TrendDetector.detect_price_trends
    rw [if_pos (Or.inr h)]
  · intro data window h
    unfold TrendDetector.detect_volume_trends
    rw [if_pos (Or.inr h)]
  · intro data h
    unfold TrendDetector.detect_momentum
    rw [if_pos (Or.inr h)]
  · intro data h
    unfold TrendDetector.detect_volatility
    rw [if_pos (Or.inr h)]

/-- C6 amended, witness on the empty input. -/
theorem short_input_neutral_results_witness :
    TrendDetector.detect_price_trends [] 5 =
      [("trend", .str "unknown"), ("strength", .num 0),
       ("support", .num 0), ("resistance", .num 0)] ∧
    TrendDetector.detect_volume_trends [] 5 =
      [("trend", .str "unknown"), ("strength", .num 0)] ∧
    TrendDetector.detect_momentum [] = [("rsi", .num 0), ("momentum", .num 0)] ∧
    TrendDetector.detect_volatility [] = [("volatility", .num 0), ("atr", .num 0)] :=
  ⟨short_input_neutral_results.1 [] 5 (by decide),
   short_input_neutral_results.2.1 [] 5 (by decide),
   short_input_neutral_results.2.2.1 [] (by decide),
   short_input_neutral_results.2.2.2 [] (by decide)⟩

namespace Store

theorem mem_py_sorted_by_timestamp {α : Type} {l : List (Entry α)} {e : Entry α} :
    e ∈ py_sorted_by_timestamp l ↔ e ∈ l := by
  simp [py_sorted_by_timestamp]

theorem zadd_mem_self {α : Type} [DecidableEq α] (z : List (Entry α)) (p : α) (t : ℤ) :
    (p, t) ∈ zadd z p t := by
  unfold zadd
  split
  · next h =>
    obtain ⟨e, he, hep⟩ := h
    exact List.mem_map.mpr ⟨e, he, by simp [hep]⟩
  · exact List.mem_append.mpr (Or.inr (List.mem_singleton.mpr rfl))

theorem zadd_entry_bound {α : Type} [DecidableEq α] {z : List (Entry α)} {p : α} {t : ℤ}
    (hz : ∀ e ∈ z, e.2 < t) : ∀ e ∈ zadd z p t, e = (p, t) ∨ e.2 < t := by
  unfold zadd
  split
  · intro e he
    obtain ⟨e₀, he₀, rfl⟩ := List.mem_map.mp he
    by_cases hc : e₀.1 = p
    · exact Or.inl (by simp [hc])
    · simpa [hc] using Or.inr (hz e₀ he₀)
  · intro e he
    rcases List.mem_append.mp he with h | h
    · exact Or.inr (hz e h)
    · exact Or.inl (List.mem_singleton.mp h)

theorem sorted_zrevLt_head {α : Type} [LinearOrder α] {l : List (Entry α)} {x : Entry α}
    (hs : l.Sorted zrevLt) (hx : x ∈ l) (hmax : ∀ e ∈ l, e = x ∨ e.2 < x.2) :
    ∃ tl, l = x :: tl := by
  cases l with
  | nil => cases hx
  | cons a tl =>
    rcases hmax a (List.mem_cons_self a tl) with h | h
    · exact ⟨tl, by rw [h]⟩
    · rcases List.mem_cons.mp hx with rfl | hxtl
      · exact absurd h (lt_irrefl _)
      · rcases (List.sorted_cons.mp hs).1 x hxtl with h2 | h2
        · exact absurd (h.trans h2) (lt_irrefl _)
        · rw [h2.1] at h
          exact absurd h (lt_irrefl _)

theorem sorted_rowGe_head {α : Type} {l : List (Row α)} {x : Row α}
    (hs : l.Sorted rowGe) (hx : x ∈ l) (hmax : ∀ r ∈ l, r = x ∨ r.ts < x.ts) :
    ∃ tl, l = x :: tl := by
  cases l with
  | nil => cases hx
  | cons a tl =>
    rcases hmax a (List.mem_cons_self a tl) with h | h
    · exact ⟨tl, by rw [h]⟩
    · rcases List.mem_cons.mp hx with rfl | hxtl
      · exact absurd h (lt_irrefl _)
      · have h2 : rowGe a x := (List.sorted_cons.mp hs).1 x hxtl
        exact absurd (lt_of_lt_of_le h h2) (lt_irrefl _)

theorem ttl_multiplier_pos (interval : String) : 0 < ttl_multiplier interval := by
  unfold ttl_multiplier
  split <;> norm_num

end Store

/-- C10 counterexample: the claim fails on the Redis backend. The same
payload (here the opaque payload `7`) written at two different arrival
seconds (100 and 200) is not stored as two distinct entries: the second
`ZADD` finds the identical sorted-set member and only updates its score,
so a read returns a single record carrying the later arrival second. -/
theorem same_payload_two_arrival_seconds_single_redis_entry :
    Store.redis_get_crypto_data
        (Store.redis_store_crypto_data
          (Store.redis_store_crypto_data (Store.RedisKey.empty : Store.RedisKey ℕ) 7 100 "1m")
          7 200 "1m")
        200 10 = [(7, 200)] := by
  decide

/-- C10 amended: on both backends the timestamp stored with a record and
returned by `get_crypto_data` is the store clock reading at write time
(the arrival second), replacing any timestamp field of the caller-supplied
payload: every returned entry is one of the stored (payload, arrival)
pairs, and a write makes its (payload, arrival-second) pair stored. The
same record written at two different arrival seconds becomes two distinct
rows on SQLite, but on Redis it is a single sorted-set member whose score
moves to the later arrival second. -/
theorem stored_timestamp_is_arrival_second {α : Type} [DecidableEq α] [LinearOrder α] :
    (∀ (k : Store.RedisKey α) (now : ℤ) (limit : ℕ) (e : Store.Entry α),
        e ∈ Store.redis_get_crypto_data k now limit → e ∈ k.zset) ∧
    (∀ (k : Store.RedisKey α) (p : α) (t : ℤ) (iv : String),
        (p, t) ∈ (Store.redis_store_crypto_data k p t iv).zset) ∧
    (∀ (T : List (Store.Row α)) (s i : String) (limit : ℕ) (e : Store.Entry α),
        e ∈ Store.sqlite_get_crypto_data T s i limit →
        ∃ r ∈ T, r.symbol = s ∧ r.interval = i ∧ e = (r.payload, r.ts)) ∧
    (∀ (T : List (Store.Row α)) (s i : String) (p : α) (t : ℤ)
        (T₂ : List (Store.Row α)),
        Store.sqlite_store_crypto_data T s i p t = .ok T₂ →
        (⟨s, i, t, p⟩ : Store.Row α) ∈ T₂) ∧
    (∀ (s i iv : String) (p : α) (t₁ t₂ : ℤ), t₁ ≠ t₂ →
        Store.sqlite_run_stores s i [(p, t₁), (p, t₂)] =
          .ok [⟨s, i, t₁, p⟩, ⟨s, i, t₂, p⟩] ∧
        (Store.redis_run_stores iv [(p, t₁), (p, t₂)]).zset = [(p, t₂)]) := by
  refine ⟨?_, ?_, ?_, ?_, ?_⟩
  · intro k now limit e he
    unfold Store.redis_get_crypto_data at he
    split at he
    · have h1 := Store.mem_py_sorted_by_timestamp.mp he
      have h2 := List.mem_of_mem_take h1
      simpa using h2
    · cases he
  · intro k p t iv
    exact Store.zadd_mem_self _ p t
  · intro T s i limit e he
    unfold Store.sqlite_get_crypto_data at he
    have h1 := Store.mem_py_sorted_by_timestamp.mp he
    obtain ⟨r, hr, rfl⟩ := List.mem_map.mp h1
    have h2 := List.mem_of_mem_take hr
    have h3 : r ∈ T.filter (fun r => decide (r.symbol = s ∧ r.interval = i)) := by
      simpa using h2
    have h4 := List.mem_filter.mp h3
    have h5 : r.symbol = s ∧ r.interval = i := by simpa using h4.2
    exact ⟨r, h4.1, h5.1, h5.2, rfl⟩
  · intro T s i p t T₂ h
    unfold Store.sqlite_store_crypto_data at h
    split at h
    · cases h
    · cases h
      exact List.mem_append.mpr (Or.inr (List.mem_singleton.mpr rfl))
  · intro s i iv p t₁ t₂ hne
    constructor
    · show Store.sqlite_run_stores s i [(p, t₁), (p, t₂)] = _
      unfold Store.sqlite_run_stores Store.sqlite_store_crypto_data
      simp [List.foldl, Except.bind, hne]
    · show (Store.redis_run_stores iv [(p, t₁), (p, t₂)]).zset = _
      unfold Store.redis_run_stores Store.redis_store_crypto_data Store.zadd
      by_cases hc : t₂ < t₁ + Store.ttl_multiplier iv <;>
        simp [List.foldl, Store.RedisKey.empty, hc]

/-- C4 counterexample: the claim fails on the code. Expiry on the Redis
backend is per series key, not per record, and each store refreshes the
key TTL. A candle stored at second 0 under the "1m" tier (TTL 1440
seconds) is still retrievable at second 2000 — age 2000 exceeding the
configured tier age 1440 — because a second store at second 1400 moved
the deadline of the whole key to 2840. -/
theorem candle_older_than_tier_age_still_retrievable :
    Store.ttl_multiplier "1m" = 1440 ∧
    Store.redis_get_crypto_data
        (Store.redis_store_crypto_data
          (Store.redis_store_crypto_data (Store.RedisKey.empty : Store.RedisKey ℕ) 5 0 "1m")
          6 1400 "1m")
        2000 10 = [(5, 0), (6, 1400)] := by
  decide

/-- C4 amended: a candle written under an interval tier is retrievable
immediately after the write on both backends. On the Redis backend the
whole series key carries one expiry deadline equal to the arrival second
of the most recent store plus the tier TTL, every store refreshes it, and
once the deadline is reached the read returns nothing (so records only
become unreachable together with their key, not individually at their own
age). On the SQLite backend the read is independent of the clock and
stored candles never expire. -/
theorem retention_is_per_key_on_redis_and_absent_on_sqlite
    {α : Type} [DecidableEq α] [LinearOrder α] :
    (∀ (k : Store.RedisKey α) (p : α) (t : ℤ) (iv : String) (limit : ℕ),
        (∀ e ∈ k.zset, e.2 < t) → 1 ≤ limit →
        (p, t) ∈ Store.redis_get_crypto_data
          (Store.redis_store_crypto_data k p t iv) t limit) ∧
    (∀ (k : Store.RedisKey α) (now : ℤ) (limit : ℕ),
        k.expireAt ≤ now → Store.redis_get_crypto_data k now limit = []) ∧
    (∀ (k : Store.RedisKey α) (p : α) (t : ℤ) (iv : String),
        (Store.redis_store_crypto_data k p t iv).expireAt =
          t + Store.ttl_multiplier iv) ∧
    (∀ (T : List (Store.Row α)) (s i : String) (p : α) (t : ℤ)
        (T₂ : List (Store.Row α)) (limit : ℕ),
        Store.sqlite_store_crypto_data T s i p t = .ok T₂ →
        (∀ r ∈ T, r.symbol = s → r.interval = i → r.ts < t) → 1 ≤ limit →
        (p, t) ∈ Store.sqlite_get_crypto_data T₂ s i limit) := by
  refine ⟨?_, ?_, ?_, ?_⟩
  · intro k p t iv limit hfresh hlim
    have hzset : (Store.redis_store_crypto_data k p t iv).zset =
        Store.zadd (if t < k.expireAt then k.zset else []) p t := rfl
    have hbase : ∀ e ∈ (if t < k.expireAt then k.zset else []), e.2 < t := by
      split
      · exact hfresh
      · intro e he; cases he
    have hmem : (p, t) ∈ (Store.redis_store_crypto_data k p t iv).zset := by
      rw [hzset]; exact Store.zadd_mem_self _ p t
    have hmax : ∀ e ∈ (Store.redis_store_crypto_data k p t iv).zset,
        e = (p, t) ∨ e.2 < t := by
      rw [hzset]; exact Store.zadd_entry_bound hbase
    unfold Store.redis_get_crypto_data
    rw [if_pos]
    · set z := (Store.redis_store_crypto_data k p t iv).zset with hz
      have hsorted : (z.insertionSort Store.zrevLt).Sorted Store.zrevLt :=
        List.sorted_insertionSort Store.zrevLt z
      have hmem2 : (p, t) ∈ z.insertionSort Store.zrevLt := by
        simpa using hmem
      have hmax2 : ∀ e ∈ z.insertionSort Store.zrevLt, e = (p, t) ∨ e.2 < t := by
        intro e he
        exact hmax e (by simpa using he)
      obtain ⟨tl, htl⟩ := Store.sorted_zrevLt_head hsorted hmem2 hmax2
      rw [Store.mem_py_sorted_by_timestamp, htl]
      cases limit with
      | zero => exact absurd hlim (by norm_num)
      | succ m => exact List.mem_cons_self _ _
    · show t < (Store.redis_store_crypto_data k p t iv).expireAt
      have : (Store.redis_store_crypto_data k p t iv).expireAt =
          t + Store.ttl_multiplier iv := rfl
      rw [this]
      have := Store.ttl_multiplier_pos iv
      omega
  · intro k now limit h
    unfold Store.redis_get_crypto_data
    rw [if_neg (not_lt.mpr h)]
  · intro k p t iv
    rfl
  · intro T s i p t T₂ limit hok hfresh hlim
    have hT₂ : T₂ = T ++ [⟨s, i, t, p⟩] := by
      unfold Store.sqlite_store_crypto_data at hok
      split at hok
      · cases hok
      · cases hok; rfl
    unfold Store.sqlite_get_crypto_data
    set q : Store.Row α → Bool := fun r => decide (r.symbol = s ∧ r.interval = i) with hq
    have hrows : T₂.filter q = T.filter q ++ [⟨s, i, t, p⟩] := by
      rw [hT₂, List.filter_append]
      congr 1
      simp [hq]
    have hsorted : ((T₂.filter q).insertionSort Store.rowGe).Sorted Store.rowGe :=
      List.sorted_insertionSort Store.rowGe _
    have hmem : (⟨s, i, t, p⟩ : Store.Row α) ∈ (T₂.filter q).insertionSort Store.rowGe := by
      simp only [List.mem_insertionSort, hrows]
      exact List.mem_append.mpr (Or.inr (List.mem_singleton.mpr rfl))
    have hmax : ∀ r ∈ (T₂.filter q).insertionSort Store.rowGe,
        r = (⟨s, i, t, p⟩ : Store.Row α) ∨ r.ts < t := by
      intro r hr
      rw [List.mem_insertionSort, hrows] at hr
      rcases List.mem_append.mp hr with h | h
      · have h1 := List.mem_filter.mp h
        have h2 : r.symbol = s ∧ r.interval = i := by simpa [hq] using h1.2
        exact Or.inr (hfresh r h1.1 h2.1 h2.2)
      · exact Or.inl (List.mem_singleton.mp h)
    obtain ⟨tl, htl⟩ := Store.sorted_rowGe_head hsorted hmem hmax
    rw [Store.mem_py_sorted_by_timestamp, htl]
    cases limit with
    | zero => exact absurd hlim (by norm_num)
    | succ m =>
      exact List.mem_map.mpr ⟨⟨s, i, t, p⟩, List.mem_cons_self _ _, rfl⟩

/-- C4 amended, witness: a single candle stored at second 100 under the
"1m" tier into an empty Redis key is retrievable immediately, an expired
key reads as empty, the stored deadline is 100 + 1440, and the SQLite row
stored into an empty table is retrievable. -/
theorem retention_amended_witness :
    ((7 : ℕ), (100 : ℤ)) ∈ Store.redis_get_crypto_data
        (Store.redis_store_crypto_data (Store.RedisKey.empty : Store.RedisKey ℕ) 7 100 "1m")
        100 5 ∧
    Store.redis_get_crypto_data (Store.RedisKey.empty : Store.RedisKey ℕ) 3 5 = [] ∧
    (Store.redis_store_crypto_data (Store.RedisKey.empty : Store.RedisKey ℕ) 7 100 "1m").expireAt
      = 100 + Store.ttl_multiplier "1m" ∧
    ((7 : ℕ), (100 : ℤ)) ∈ Store.sqlite_get_crypto_data
        ([⟨"BTC", "1m", 100, 7⟩] : List (Store.Row ℕ)) "BTC" "1m" 5 :=
  ⟨(retention_is_per_key_on_redis_and_absent_on_sqlite.1 Store.RedisKey.empty 7 100 "1m" 5
      (by intro e he; cases he) (by norm_num)),
   (retention_is_per_key_on_redis_and_absent_on_sqlite.2.1 Store.RedisKey.empty 3 5
      (by norm_num [Store.RedisKey.empty])),
   (retention_is_per_key_on_redis_and_absent_on_sqlite.2.2.1 Store.RedisKey.empty 7 100 "1m"),
   (retention_is_per_key_on_redis_and_absent_on_sqlite.2.2.2 [] "BTC" "1m" 7 100
      [⟨"BTC", "1m", 100, 7⟩] 5 rfl (by intro r hr; cases hr) (by norm_num))⟩

namespace Store

theorem sqlite_wf_key_countP_le_one {α : Type} {T : List (Row α)} (hwf : SqliteWf T)
    (s i : String) (t : ℤ) :
    T.countP (fun r => decide (r.symbol = s ∧ r.interval = i ∧ r.ts = t)) ≤ 1 := by
  induction T with
  | nil => simp
  | cons r T ih =>
    rw [List.countP_cons]
    have hrel := (List.pairwise_cons.mp hwf).1
    have hwf2 : SqliteWf T := (List.pairwise_cons.mp hwf).2
    by_cases hr : r.symbol = s ∧ r.interval = i ∧ r.ts = t
    · have hz : T.countP (fun r => decide (r.symbol = s ∧ r.interval = i ∧ r.ts = t)) = 0 := by
        rw [List.countP_eq_zero]
        intro r2 hr2 hp
        have h3 : r2.symbol = s ∧ r2.interval = i ∧ r2.ts = t := of_decide_eq_true hp
        exact hrel r2 hr2 (hr.1.trans h3.1.symm) (hr.2.1.trans h3.2.1.symm)
          (hr.2.2.trans h3.2.2.symm)
      rw [hz]
      simp [hr]
    · have hfalse : decide (r.symbol = s ∧ r.interval = i ∧ r.ts = t) = false :=
        decide_eq_false hr
      rw [hfalse]
      simpa using ih hwf2

theorem sqlite_get_key_countP_le_one {α : Type} {T : List (Row α)} (hwf : SqliteWf T)
    (s i : String) (limit : ℕ) (t : ℤ) :
    (sqlite_get_crypto_data T s i limit).countP (fun e => decide (e.2 = t)) ≤ 1 := by
  unfold sqlite_get_crypto_data
  have h1 : (py_sorted_by_timestamp
      ((((T.filter (fun r => decide (r.symbol = s ∧ r.interval = i))).insertionSort
          rowGe).take limit).map (fun r => (r.payload, r.ts)))).countP
        (fun e => decide (e.2 = t)) =
      ((((T.filter (fun r => decide (r.symbol = s ∧ r.interval = i))).insertionSort
          rowGe).take limit).map (fun r => (r.payload, r.ts))).countP
        (fun e => decide (e.2 = t)) :=
    (List.perm_insertionSort _ _).countP_eq _
  rw [h1, List.countP_map]
  have h2 := (List.take_sublist limit
    ((T.filter (fun r => decide (r.symbol = s ∧ r.interval = i))).insertionSort
      rowGe)).countP_le ((fun e : Entry α => decide (e.2 = t)) ∘ (fun r => (r.payload, r.ts)))
  refine le_trans h2 ?_
  rw [(List.perm_insertionSort rowGe _).countP_eq, List.countP_filter]
  have h3 : (fun r : Row α =>
      ((fun e : Entry α => decide (e.2 = t)) ∘ (fun r => (r.payload, r.ts))) r &&
        decide (r.symbol = s ∧ r.interval = i)) =
      (fun r : Row α => decide (r.symbol = s ∧ r.interval = i ∧ r.ts = t)) := by
    funext r
    show (decide (r.ts = t) && decide (r.symbol = s ∧ r.interval = i)) = _
    by_cases h1 : r.ts = t <;> by_cases h2 : r.symbol = s <;>
      by_cases h3 : r.interval = i <;> simp [h1, h2, h3]
  rw [h3]
  exact sqlite_wf_key_countP_le_one hwf s i t

theorem sqlite_store_preserves_wf {α : Type} {T T₂ : List (Row α)} {s i : String}
    {p : α} {t : ℤ} (hwf : SqliteWf T)
    (hok : sqlite_store_crypto_data T s i p t = .ok T₂) : SqliteWf T₂ := by
  unfold sqlite_store_crypto_data at hok
  split at hok
  · cases hok
  · next hno =>
    cases hok
    unfold SqliteWf
    rw [List.pairwise_append]
    refine ⟨hwf, List.pairwise_singleton _ _, ?_⟩
    intro r hr rnew hrnew
    rw [List.mem_singleton] at hrnew
    subst hrnew
    intro h1 h2 h3
    exact hno ⟨r, hr, h1, h2, h3⟩

theorem countP_fst_zadd_of_mem {α : Type} [DecidableEq α] {z : List (Entry α)}
    (hnd : NodupMembers z) {p : α} (hex : ∃ e ∈ z, e.1 = p) :
    z.countP (fun e => decide (e.1 = p)) = 1 := by
  induction z with
  | nil =>
    obtain ⟨e, he, _⟩ := hex
    cases he
  | cons a z ih =>
    have hnd0 : (a.1 :: z.map Prod.fst).Nodup := by simpa [NodupMembers] using hnd
    have hnd2 : NodupMembers z := (List.nodup_cons.mp hnd0).2
    have hnotin : a.1 ∉ z.map Prod.fst := (List.nodup_cons.mp hnd0).1
    rw [List.countP_cons]
    by_cases hc : a.1 = p
    · have hz : z.countP (fun e => decide (e.1 = p)) = 0 := by
        rw [List.countP_eq_zero]
        intro e he hp2
        have h4 : e.1 = p := of_decide_eq_true hp2
        exact hnotin (by rw [hc, ← h4]; exact List.mem_map_of_mem Prod.fst he)
      simp [hz, hc]
    · rcases hex with ⟨e, he, hep⟩
      rcases List.mem_cons.mp he with rfl | hez
      · exact absurd hep hc
      · rw [ih hnd2 ⟨e, hez, hep⟩]
        simp [hc]

theorem countP_member_zadd_eq_one {α : Type} [DecidableEq α] {z : List (Entry α)}
    (hnd : NodupMembers z) (p : α) (t : ℤ) :
    (zadd z p t).countP (fun e => decide (e.1 = p)) = 1 := by
  unfold zadd
  split
  · next hex =>
    rw [List.countP_map]
    have h1 : ((fun e : Entry α => decide (e.1 = p)) ∘
        (fun e : Entry α => if e.1 = p then (p, t) else e)) =
        (fun e : Entry α => decide (e.1 = p)) := by
      funext e
      by_cases h : e.1 = p <;> simp [h]
    rw [h1]
    exact countP_fst_zadd_of_mem hnd hex
  · next hex =>
    rw [List.countP_append]
    have hz : z.countP (fun e => decide (e.1 = p)) = 0 := by
      rw [List.countP_eq_zero]
      intro e he hp2
      exact hex ⟨e, he, of_decide_eq_true hp2⟩
    simp [hz]

theorem zadd_preserves_nodupMembers {α : Type} [DecidableEq α] {z : List (Entry α)}
    (hnd : NodupMembers z) (p : α) (t : ℤ) : NodupMembers (zadd z p t) := by
  unfold zadd
  split
  · next hex =>
    unfold NodupMembers at hnd ⊢
    rw [List.map_map]
    have h1 : (Prod.fst ∘ fun e : Entry α => if e.1 = p then (p, t) else e) = Prod.fst := by
      funext e
      by_cases h : e.1 = p <;> simp [h]
    rw [h1]
    exact hnd
  · next hex =>
    unfold NodupMembers at hnd ⊢
    rw [List.map_append]
    rw [List.nodup_append]
    refine ⟨hnd, List.nodup_singleton _, ?_⟩
    intro a ha hb
    rw [List.map_singleton, List.mem_singleton] at hb
    subst hb
    obtain ⟨e, he, hfst⟩ := List.mem_map.mp ha
    exact hex ⟨e, he, hfst⟩

theorem redis_store_preserves_nodupMembers {α : Type} [DecidableEq α] {k : RedisKey α}
    (hnd : NodupMembers k.zset) (p : α) (t : ℤ) (iv : String) :
    NodupMembers (redis_store_crypto_data k p t iv).zset := by
  have h : (redis_store_crypto_data k p t iv).zset =
      zadd (if t < k.expireAt then k.zset else []) p t := rfl
  rw [h]
  apply zadd_preserves_nodupMembers
  split
  · exact hnd
  · simp [NodupMembers]

end Store

/-- C1 counterexample: the claim fails on the Redis backend. Two candles
with distinct payloads (the opaque payloads 0 and 1) written in the same
arrival second 100 — hence with identical (symbol, interval, timestamp)
natural key — are two distinct sorted-set members with the same score, and
a subsequent read returns both records for that key. -/
theorem two_payloads_same_second_two_redis_records :
    Store.redis_get_crypto_data
        (Store.redis_store_crypto_data
          (Store.redis_store_crypto_data (Store.RedisKey.empty : Store.RedisKey ℕ) 0 100 "1m")
          1 100 "1m")
        100 10 = [(1, 100), (0, 100)] := by
  decide

/-- C1 amended: on the SQLite backend the natural key is enforced — a
second write with the same (symbol, interval, timestamp) raises the
uniqueness violation and leaves the table unchanged, the UNIQUE invariant
is preserved by successful writes, and a read never returns two records
with the same timestamp for a key. On the Redis backend a second write
whose payload is identical overwrites the single sorted-set member (the
well-formed member-uniqueness is preserved), but distinct payloads in the
same arrival second produce two records with the same key. -/
theorem natural_key_unique_per_backend {α : Type} [DecidableEq α] [LinearOrder α] :
    (∀ (T : List (Store.Row α)) (s i : String) (p p2 : α) (t : ℤ)
        (T₂ : List (Store.Row α)),
        Store.sqlite_store_crypto_data T s i p t = .ok T₂ →
        Store.sqlite_store_crypto_data T₂ s i p2 t = .error ()) ∧
    (∀ (T : List (Store.Row α)), Store.SqliteWf T →
        ∀ (s i : String) (limit : ℕ) (t : ℤ),
        (Store.sqlite_get_crypto_data T s i limit).countP
          (fun e => decide (e.2 = t)) ≤ 1) ∧
    (∀ (T T₂ : List (Store.Row α)) (s i : String) (p : α) (t : ℤ),
        Store.SqliteWf T → Store.sqlite_store_crypto_data T s i p t = .ok T₂ →
        Store.SqliteWf T₂) ∧
    (∀ (k : Store.RedisKey α) (p : α) (t : ℤ) (iv : String),
        Store.NodupMembers k.zset →
        Store.NodupMembers (Store.redis_store_crypto_data k p t iv).zset) ∧
    (∀ (k : Store.RedisKey α) (p : α) (t : ℤ) (iv : String),
        Store.NodupMembers k.zset →
        ((Store.redis_store_crypto_data k p t iv).zset).countP
          (fun e => decide (e.1 = p)) = 1) := by
  refine ⟨?_, ?_, ?_, ?_, ?_⟩
  · intro T s i p p2 t T₂ hok
    have hT₂ : T₂ = T ++ [⟨s, i, t, p⟩] := by
      unfold Store.sqlite_store_crypto_data at hok
      split at hok
      · cases hok
      · cases hok; rfl
    unfold Store.sqlite_store_crypto_data
    rw [if_pos]
    exact ⟨⟨s, i, t, p⟩, by
      rw [hT₂]
      exact List.mem_append.mpr (Or.inr (List.mem_singleton.mpr rfl)), rfl, rfl, rfl⟩
  · intro T hwf s i limit t
    exact Store.sqlite_get_key_countP_le_one hwf s i limit t
  · intro T T₂ s i p t hwf hok
    exact Store.sqlite_store_preserves_wf hwf hok
  · intro k p t iv hnd
    exact Store.redis_store_preserves_nodupMembers hnd p t iv
  · intro k p t iv hnd
    have h : (Store.redis_store_crypto_data k p t iv).zset =
        Store.zadd (if t < k.expireAt then k.zset else []) p t := rfl
    rw [h]
    apply Store.countP_member_zadd_eq_one
    split
    · exact hnd
    · simp [Store.NodupMembers]

/-- C1 amended, witness at concrete inputs: the duplicate-key insert is
rejected on SQLite, the read of a one-row table returns at most one
record per timestamp, well-formedness and member-uniqueness are
preserved, and a Redis store leaves exactly one entry for the payload. -/
theorem natural_key_unique_per_backend_witness :
    Store.sqlite_store_crypto_data ([⟨"BTC", "1h", 100, 0⟩] : List (Store.Row ℕ))
      "BTC" "1h" 1 100 = .error () ∧
    (Store.sqlite_get_crypto_data ([⟨"BTC", "1h", 100, 0⟩] : List (Store.Row ℕ))
      "BTC" "1h" 5).countP (fun e => decide (e.2 = 100)) ≤ 1 ∧
    Store.SqliteWf ([⟨"BTC", "1h", 100, 0⟩] : List (Store.Row ℕ)) ∧
    Store.NodupMembers
      (Store.redis_store_crypto_data (Store.RedisKey.empty : Store.RedisKey ℕ)
        7 100 "1h").zset ∧
    ((Store.redis_store_crypto_data (Store.RedisKey.empty : Store.RedisKey ℕ)
        7 100 "1h").zset).countP (fun e => decide (e.1 = 7)) = 1 :=
  ⟨natural_key_unique_per_backend.1 [] "BTC" "1h" 0 1 100 [⟨"BTC", "1h", 100, 0⟩] rfl,
   natural_key_unique_per_backend.2.1 [⟨"BTC", "1h", 100, 0⟩]
     (List.pairwise_singleton _ _) "BTC" "1h" 5 100,
   natural_key_unique_per_backend.2.2.1 [] [⟨"BTC", "1h", 100, 0⟩] "BTC" "1h" 0 100
     List.Pairwise.nil rfl,
   natural_key_unique_per_backend.2.2.2.1 Store.RedisKey.empty 7 100 "1h"
     (by simp [Store.NodupMembers, Store.RedisKey.empty]),
   natural_key_unique_per_backend.2.2.2.2 Store.RedisKey.empty 7 100 "1h"
     (by simp [Store.NodupMembers, Store.RedisKey.empty])⟩

/-- C10 amended, witness at concrete inputs: a stored entry carries its
arrival second on both backends, and the same payload stored at seconds
100 and 200 gives two SQLite rows but a single Redis entry at 200. -/
theorem stored_timestamp_is_arrival_second_witness :
    ((7, 100) : Store.Entry ℕ) ∈
      (Store.redis_store_crypto_data (Store.RedisKey.empty : Store.RedisKey ℕ)
        7 100 "1h").zset ∧
    (∃ r ∈ ([⟨"BTC", "1h", 100, 7⟩] : List (Store.Row ℕ)),
        r.symbol = "BTC" ∧ r.interval = "1h" ∧
        ((7, 100) : Store.Entry ℕ) = (r.payload, r.ts)) ∧
    (⟨"BTC", "1h", 100, 7⟩ : Store.Row ℕ) ∈
      ([⟨"BTC", "1h", 100, 7⟩] : List (Store.Row ℕ)) ∧
    (Store.sqlite_run_stores "BTC" "1h" [((7 : ℕ), (100 : ℤ)), (7, 200)] =
        .ok [⟨"BTC", "1h", 100, 7⟩, ⟨"BTC", "1h", 200, 7⟩] ∧
      (Store.redis_run_stores "1h" [((7 : ℕ), (100 : ℤ)), (7, 200)]).zset = [(7, 200)]) :=
  ⟨(@stored_timestamp_is_arrival_second ℕ _ _).1
      (Store.redis_store_crypto_data Store.RedisKey.empty 7 100 "1h") 100 5 (7, 100)
      (by decide),
   (@stored_timestamp_is_arrival_second ℕ _ _).2.2.1
      [⟨"BTC", "1h", 100, 7⟩] "BTC" "1h" 5 (7, 100) (by decide),
   (@stored_timestamp_is_arrival_second ℕ _ _).2.2.2.1
      [] "BTC" "1h" 7 100 [⟨"BTC", "1h", 100, 7⟩] rfl,
   (@stored_timestamp_is_arrival_second ℕ _ _).2.2.2.2
      "BTC" "1h" "1h" 7 100 200 (by decide)⟩

namespace TrendDetector

theorem gainsOf_nonneg (closes : List ℚ) : ∀ x ∈ gainsOf closes, 0 ≤ x := by
  intro x hx
  rcases List.mem_cons.mp hx with rfl | hx2
  · exact le_refl 0
  · obtain ⟨d, _, rfl⟩ := List.mem_map.mp hx2
    exact le_max_right d 0

theorem lossesOf_nonneg (closes : List ℚ) : ∀ x ∈ lossesOf closes, 0 ≤ x := by
  intro x hx
  rcases List.mem_cons.mp hx with rfl | hx2
  · exact le_refl 0
  · obtain ⟨d, _, rfl⟩ := List.mem_map.mp hx2
    exact le_max_right (-d) 0

theorem slice_sum_nonneg {l : List ℚ} (hl : ∀ x ∈ l, 0 ≤ x) (a b : ℕ) :
    0 ≤ ((l.drop a).take b).sum :=
  List.sum_nonneg fun x hx => hl x (List.mem_of_mem_drop (List.mem_of_mem_take hx))

theorem rsiAt_bounds {closes : List ℚ} {pos : ℕ} {r : ℚ}
    (h : rsiAt closes pos = some r) : 0 ≤ r ∧ r ≤ 100 := by
  unfold rsiAt at h
  split at h
  · cases h
  · dsimp only at h
    have hg0 : 0 ≤ (((gainsOf closes).drop (pos - 13)).take 14).sum / 14 :=
      div_nonneg (slice_sum_nonneg (gainsOf_nonneg closes) _ _) (by norm_num)
    have hl0 : 0 ≤ (((lossesOf closes).drop (pos - 13)).take 14).sum / 14 :=
      div_nonneg (slice_sum_nonneg (lossesOf_nonneg closes) _ _) (by norm_num)
    set g : ℚ := (((gainsOf closes).drop (pos - 13)).take 14).sum / 14 with hg
    set l : ℚ := (((lossesOf closes).drop (pos - 13)).take 14).sum / 14 with hl
    split at h
    · split at h
      · cases h
      · cases h
        norm_num
    · next hlne =>
      cases h
      have hlpos : 0 < l := lt_of_le_of_ne hl0 (Ne.symm hlne)
      have hq0 : 0 ≤ g / l := div_nonneg hg0 (le_of_lt hlpos)
      constructor
      · have h1 : 100 / (1 + g / l) ≤ 100 :=
          div_le_self (by norm_num) (by linarith)
        linarith
      · have h2 : 0 < 100 / (1 + g / l) := div_pos (by norm_num) (by linarith)
        linarith

end TrendDetector

theorem detect_momentum_rsi_entry (data : List TrendDetector.Candle)
    (h : ¬(data = [] ∨ data.length < 14)) :
    (TrendDetector.detect_momentum data).lookup "rsi" =
      some (TrendDetector.Val.num
        (match TrendDetector.rsiAt
            ((data.insertionSort TrendDetector.candleTsLe).map (fun c => c.close))
            (((data.insertionSort TrendDetector.candleTsLe).map
              (fun c => c.close)).length - 1) with
        | some r => r
        | none => 50)) := by
  unfold TrendDetector.detect_momentum
  rw [if_neg h]
  dsimp only
  simp [List.lookup]

/-- C7: for every candle sequence of length at least 14, the rsi value
returned by `detect_momentum` lies within [0, 100] (without needing any
non-degeneracy assumption: a degenerate flat window yields the NaN
fallback 50, which is also in range). -/
theorem rsi_bounded_between_0_and_100 (data : List TrendDetector.Candle)
    (h : 14 ≤ data.length) :
    ∃ r : ℚ, (TrendDetector.detect_momentum data).lookup "rsi" =
        some (TrendDetector.Val.num r) ∧ 0 ≤ r ∧ r ≤ 100 := by
  have hne : ¬(data = [] ∨ data.length < 14) := by
    push_neg
    exact ⟨by rintro rfl; simp at h, by omega⟩
  refine ⟨_, detect_momentum_rsi_entry data hne, ?_⟩
  cases hr : TrendDetector.rsiAt
      ((data.insertionSort TrendDetector.candleTsLe).map (fun c => c.close))
      (((data.insertionSort TrendDetector.candleTsLe).map
        (fun c => c.close)).length - 1) with
  | none => norm_num
  | some r =>
    simpa using TrendDetector.rsiAt_bounds hr

/-- C7 witness: fourteen candles with strictly rising closes; the RSI
value exists and is within bounds. -/
theorem rsi_bounded_witness :
    ∃ r : ℚ, (TrendDetector.detect_momentum
        ((List.range 14).map (fun j => ⟨j, j, j, 1, j⟩))).lookup "rsi" =
        some (TrendDetector.Val.num r) ∧ 0 ≤ r ∧ r ≤ 100 :=
  rsi_bounded_between_0_and_100 ((List.range 14).map (fun j => ⟨j, j, j, 1, j⟩)) (by decide)

namespace TrendDetector

theorem slice_sum_eq_range_sum (l : List ℚ) :
    ∀ (b a : ℕ), a + b ≤ l.length →
      ((l.drop a).take b).sum = ∑ k ∈ Finset.range b, l.getD (a + k) 0 := by
  intro b
  induction b with
  | zero => intro a _; simp
  | succ b ih =>
    intro a h
    rw [List.take_succ, List.sum_append, ih a (by omega), Finset.sum_range_succ]
    congr 1
    have hlt : a + b < l.length := by omega
    rw [List.getElem?_drop, List.getElem?_eq_getElem hlt]
    simp [List.getD_eq_getElem l 0 hlt, List.getElem?_eq_getElem hlt]

theorem pairwise_lt_getD {l : List ℚ} (h : l.Pairwise (· < ·)) {i j : ℕ}
    (hij : i < j) (hj : j < l.length) : l.getD i 0 < l.getD j 0 := by
  have hi : i < l.length := lt_trans hij hj
  rw [List.getD_eq_getElem l 0 hi, List.getD_eq_getElem l 0 hj]
  exact List.pairwise_iff_getElem.mp h i j hi hj hij

theorem pairwise_gt_getD {l : List ℚ} (h : l.Pairwise (· > ·)) {i j : ℕ}
    (hij : i < j) (hj : j < l.length) : l.getD j 0 < l.getD i 0 := by
  have hi : i < l.length := lt_trans hij hj
  rw [List.getD_eq_getElem l 0 hi, List.getD_eq_getElem l 0 hj]
  exact List.pairwise_iff_getElem.mp h i j hi hj hij

theorem detect_price_trends_uptrend_entries (data : List Candle) (window : ℕ)
    (prev : ℚ) (h1 : ¬(data = [] ∨ data.length < window)) (h2 : window < data.length)
    (hsma : smaAt (data.map (fun c => c.close)) window (data.length - window) = some prev)
    (hlt : prev < ((data.map (fun c => c.close)).drop (data.length - window)).sum / window) :
    (detect_price_trends data window).lookup "trend" = some (Val.str "uptrend") ∧
    (detect_price_trends data window).lookup "strength" = some (Val.num
      (if 0 < prev then
        min 1 ((((data.map (fun c => c.close)).drop (data.length - window)).sum / window
          - prev) / prev * 5)
      else 1/2)) := by
  unfold detect_price_trends
  rw [if_neg h1]
  dsimp only
  rw [if_pos h2, hsma]
  dsimp only
  rw [if_pos hlt]
  constructor <;> simp [List.lookup]

theorem detect_price_trends_downtrend_entry (data : List Candle) (window : ℕ)
    (prev : ℚ) (h1 : ¬(data = [] ∨ data.length < window)) (h2 : window < data.length)
    (hsma : smaAt (data.map (fun c => c.close)) window (data.length - window) = some prev)
    (hgt : ((data.map (fun c => c.close)).drop (data.length - window)).sum / window < prev) :
    (detect_price_trends data window).lookup "trend" = some (Val.str "downtrend") := by
  unfold detect_price_trends
  rw [if_neg h1]
  dsimp only
  rw [if_pos h2, hsma]
  dsimp only
  rw [if_neg (lt_asymm hgt), if_pos hgt]
  simp [List.lookup]

theorem sma_windows_compare (data : List Candle) (window : ℕ)
    (hw : 2 ≤ window) (hn : 2 * window ≤ data.length) :
    smaAt (data.map (fun c => c.close)) window (data.length - window) =
      some ((∑ k ∈ Finset.range window,
        (data.map (fun c => c.close)).getD (data.length + 1 - 2 * window + k) 0) /
          window) ∧
    ((data.map (fun c => c.close)).drop (data.length - window)).sum =
      ∑ k ∈ Finset.range window,
        (data.map (fun c => c.close)).getD (data.length - window + k) 0 := by
  set closes := data.map (fun c => c.close) with hcl
  have hlen : closes.length = data.length := by rw [hcl, List.length_map]
  constructor
  · unfold smaAt
    rw [if_neg (by push_neg; rw [hlen]; omega)]
    congr 1
    rw [List.drop_take]
    have ha : data.length - window + 1 - window = data.length + 1 - 2 * window := by omega
    have hb : data.length - window + 1 - (data.length + 1 - 2 * window) = window := by
      omega
    rw [ha, hb]
    congr 1
    exact slice_sum_eq_range_sum closes window (data.length + 1 - 2 * window)
      (by rw [hlen]; omega)
  · have htake : closes.drop (data.length - window) =
        (closes.drop (data.length - window)).take window := by
      rw [List.take_of_length_le]
      rw [List.length_drop, hlen]
      omega
    rw [htake]
    exact slice_sum_eq_range_sum closes window (data.length - window) (by rw [hlen]; omega)

end TrendDetector

/-- C8: for every candle sequence whose closes are strictly increasing
with length at least 2×W (W the moving-average window, W ≥ 2 covering the
default 5), `detect_price_trends` classifies the trend as `uptrend` with
strength strictly greater than 0, and a strictly decreasing close
sequence of the same length is classified `downtrend`. -/
theorem strictly_monotone_closes_classify_trend (data : List TrendDetector.Candle)
    (window : ℕ) (hw : 2 ≤ window) (hn : 2 * window ≤ data.length) :
    ((data.map (fun c => c.close)).Pairwise (· < ·) →
        (TrendDetector.detect_price_trends data window).lookup "trend" =
          some (TrendDetector.Val.str "uptrend") ∧
        ∃ st : ℚ, (TrendDetector.detect_price_trends data window).lookup "strength" =
          some (TrendDetector.Val.num st) ∧ 0 < st) ∧
    ((data.map (fun c => c.close)).Pairwise (· > ·) →
        (TrendDetector.detect_price_trends data window).lookup "trend" =
          some (TrendDetector.Val.str "downtrend")) := by
  have hlen : (data.map (fun c => c.close)).length = data.length := List.length_map _ _
  have h1 : ¬(data = [] ∨ data.length < window) := by
    push_neg
    constructor
    · rintro rfl
      simp at hn
      omega
    · omega
  have h2 : window < data.length := by omega
  have hw0 : (0 : ℚ) < window := by
    have : 0 < window := by omega
    exact_mod_cast this
  obtain ⟨hsma, hlast⟩ := TrendDetector.sma_windows_compare data window hw hn
  constructor
  · intro hmono
    have hptwise : ∀ k ∈ Finset.range window,
        (data.map (fun c => c.close)).getD (data.length + 1 - 2 * window + k) 0 <
        (data.map (fun c => c.close)).getD (data.length - window + k) 0 := by
      intro k hk
      have hkw : k < window := Finset.mem_range.mp hk
      exact TrendDetector.pairwise_lt_getD hmono (by omega) (by omega)
    have hsumlt : (∑ k ∈ Finset.range window,
        (data.map (fun c => c.close)).getD (data.length + 1 - 2 * window + k) 0) <
        ∑ k ∈ Finset.range window,
          (data.map (fun c => c.close)).getD (data.length - window + k) 0 :=
      Finset.sum_lt_sum_of_nonempty (Finset.nonempty_range_iff.mpr (by omega)) hptwise
    have hlt : (∑ k ∈ Finset.range window,
        (data.map (fun c => c.close)).getD (data.length + 1 - 2 * window + k) 0) / window <
        ((data.map (fun c => c.close)).drop (data.length - window)).sum / window := by
      rw [hlast]
      exact (div_lt_div_iff_of_pos_right hw0).mpr hsumlt
    obtain ⟨htrend, hstrength⟩ :=
      TrendDetector.detect_price_trends_uptrend_entries data window _ h1 h2 hsma hlt
    refine ⟨htrend, _, hstrength, ?_⟩
    split
    · next hp =>
      refine lt_min (by norm_num) ?_
      have hnum : 0 < ((data.map (fun c => c.close)).drop (data.length - window)).sum
          / window - (∑ k ∈ Finset.range window,
            (data.map (fun c => c.close)).getD (data.length + 1 - 2 * window + k) 0)
              / window := sub_pos.mpr hlt
      positivity
    · norm_num
  · intro hmono
    have hptwise : ∀ k ∈ Finset.range window,
        (data.map (fun c => c.close)).getD (data.length - window + k) 0 <
        (data.map (fun c => c.close)).getD (data.length + 1 - 2 * window + k) 0 := by
      intro k hk
      have hkw : k < window := Finset.mem_range.mp hk
      exact TrendDetector.pairwise_gt_getD hmono (by omega) (by omega)
    have hsumlt : (∑ k ∈ Finset.range window,
        (data.map (fun c => c.close)).getD (data.length - window + k) 0) <
        ∑ k ∈ Finset.range window,
          (data.map (fun c => c.close)).getD (data.length + 1 - 2 * window + k) 0 :=
      Finset.sum_lt_sum_of_nonempty (Finset.nonempty_range_iff.mpr (by omega)) hptwise
    have hgt : ((data.map (fun c => c.close)).drop (data.length - window)).sum / window <
        (∑ k ∈ Finset.range window,
          (data.map (fun c => c.close)).getD (data.length + 1 - 2 * window + k) 0)
            / window := by
      rw [hlast]
      exact (div_lt_div_iff_of_pos_right hw0).mpr hsumlt
    exact TrendDetector.detect_price_trends_downtrend_entry data window _ h1 h2 hsma hgt

/-- C8 witness: the concrete scenario of the specification — 10 hourly
candles with closes 50000, 50500, …, 54500 and window 5 classify as
`uptrend` with positive strength, and the reversed closes classify as
`downtrend`. -/
theorem strictly_monotone_closes_classify_trend_witness :
    ((TrendDetector.detect_price_trends
        ([⟨50000, 50000, 50000, 1, 0⟩, ⟨50500, 50500, 50500, 1, 1⟩, ⟨51000, 51000, 51000, 1, 2⟩, ⟨51500, 51500, 51500, 1, 3⟩, ⟨52000, 52000, 52000, 1, 4⟩, ⟨52500, 52500, 52500, 1, 5⟩, ⟨53000, 53000, 53000, 1, 6⟩, ⟨53500, 53500, 53500, 1, 7⟩, ⟨54000, 54000, 54000, 1, 8⟩, ⟨54500, 54500, 54500, 1, 9⟩] : List TrendDetector.Candle) 5).lookup "trend" =
          some (TrendDetector.Val.str "uptrend") ∧
      ∃ st : ℚ, (TrendDetector.detect_price_trends
        ([⟨50000, 50000, 50000, 1, 0⟩, ⟨50500, 50500, 50500, 1, 1⟩, ⟨51000, 51000, 51000, 1, 2⟩, ⟨51500, 51500, 51500, 1, 3⟩, ⟨52000, 52000, 52000, 1, 4⟩, ⟨52500, 52500, 52500, 1, 5⟩, ⟨53000, 53000, 53000, 1, 6⟩, ⟨53500, 53500, 53500, 1, 7⟩, ⟨54000, 54000, 54000, 1, 8⟩, ⟨54500, 54500, 54500, 1, 9⟩] : List TrendDetector.Candle) 5).lookup "strength" =
          some (TrendDetector.Val.num st) ∧ 0 < st) ∧
    (TrendDetector.detect_price_trends
        ([⟨54500, 54500, 54500, 1, 0⟩, ⟨54000, 54000, 54000, 1, 1⟩, ⟨53500, 53500, 53500, 1, 2⟩, ⟨53000, 53000, 53000, 1, 3⟩, ⟨52500, 52500, 52500, 1, 4⟩, ⟨52000, 52000, 52000, 1, 5⟩, ⟨51500, 51500, 51500, 1, 6⟩, ⟨51000, 51000, 51000, 1, 7⟩, ⟨50500, 50500, 50500, 1, 8⟩, ⟨50000, 50000, 50000, 1, 9⟩] : List TrendDetector.Candle) 5).lookup "trend" =
        some (TrendDetector.Val.str "downtrend") :=
  ⟨(strictly_monotone_closes_classify_trend
      ([⟨50000, 50000, 50000, 1, 0⟩, ⟨50500, 50500, 50500, 1, 1⟩, ⟨51000, 51000, 51000, 1, 2⟩, ⟨51500, 51500, 51500, 1, 3⟩, ⟨52000, 52000, 52000, 1, 4⟩, ⟨52500, 52500, 52500, 1, 5⟩, ⟨53000, 53000, 53000, 1, 6⟩, ⟨53500, 53500, 53500, 1, 7⟩, ⟨54000, 54000, 54000, 1, 8⟩, ⟨54500, 54500, 54500, 1, 9⟩] : List TrendDetector.Candle) 5 (by norm_num) (by decide)).1 (by decide),
   (strictly_monotone_closes_classify_trend
      ([⟨54500, 54500, 54500, 1, 0⟩, ⟨54000, 54000, 54000, 1, 1⟩, ⟨53500, 53500, 53500, 1, 2⟩, ⟨53000, 53000, 53000, 1, 3⟩, ⟨52500, 52500, 52500, 1, 4⟩, ⟨52000, 52000, 52000, 1, 5⟩, ⟨51500, 51500, 51500, 1, 6⟩, ⟨51000, 51000, 51000, 1, 7⟩, ⟨50500, 50500, 50500, 1, 8⟩, ⟨50000, 50000, 50000, 1, 9⟩] : List TrendDetector.Candle) 5 (by norm_num) (by decide)).2 (by decide)⟩

namespace TrendDetector

theorem detect_volatility_bollinger_entry (data : List Candle)
    (h : ¬(data = [] ∨ data.length < 5)) :
    (detect_volatility data).lookup "bollinger_position" =
      some (Val.num (bollingerPosition (data.map (fun c => c.close)))) := by
  unfold detect_volatility
  rw [if_neg h]
  dsimp only
  simp [List.lookup]

end TrendDetector

/-- C9 counterexample: the claim fails on the code. Twenty candles whose
closes are 100 nineteen times followed by a single 110 have 20-period mean
201/2 and sample variance 5, so the band half-width is 2·√5 ≈ 4.47 and the
final close 110 lies above the upper band: the normalized position
(110 − (201/2 − 2√5)) / (4√5) ≈ 1.56 exceeds 1 — `bollinger_position` is
not clamped to [0, 1]. -/
theorem bollinger_position_exceeds_unit_interval :
    ∃ b : ℝ,
      (TrendDetector.detect_volatility
        ([⟨100, 100, 100, 1, 0⟩, ⟨100, 100, 100, 1, 1⟩, ⟨100, 100, 100, 1, 2⟩, ⟨100, 100, 100, 1, 3⟩, ⟨100, 100, 100, 1, 4⟩, ⟨100, 100, 100, 1, 5⟩, ⟨100, 100, 100, 1, 6⟩, ⟨100, 100, 100, 1, 7⟩, ⟨100, 100, 100, 1, 8⟩, ⟨100, 100, 100, 1, 9⟩, ⟨100, 100, 100, 1, 10⟩, ⟨100, 100, 100, 1, 11⟩, ⟨100, 100, 100, 1, 12⟩, ⟨100, 100, 100, 1, 13⟩, ⟨100, 100, 100, 1, 14⟩, ⟨100, 100, 100, 1, 15⟩, ⟨100, 100, 100, 1, 16⟩, ⟨100, 100, 100, 1, 17⟩, ⟨100, 100, 100, 1, 18⟩, ⟨110, 110, 110, 1, 19⟩] : List TrendDetector.Candle)).lookup "bollinger_position" =
        some (TrendDetector.Val.num b) ∧ 1 < b := by
  refine ⟨_, TrendDetector.detect_volatility_bollinger_entry _ (by decide), ?_⟩
  unfold TrendDetector.bollingerPosition
  have hvar : TrendDetector.var20
      (([⟨100, 100, 100, 1, 0⟩, ⟨100, 100, 100, 1, 1⟩, ⟨100, 100, 100, 1, 2⟩, ⟨100, 100, 100, 1, 3⟩, ⟨100, 100, 100, 1, 4⟩, ⟨100, 100, 100, 1, 5⟩, ⟨100, 100, 100, 1, 6⟩, ⟨100, 100, 100, 1, 7⟩, ⟨100, 100, 100, 1, 8⟩, ⟨100, 100, 100, 1, 9⟩, ⟨100, 100, 100, 1, 10⟩, ⟨100, 100, 100, 1, 11⟩, ⟨100, 100, 100, 1, 12⟩, ⟨100, 100, 100, 1, 13⟩, ⟨100, 100, 100, 1, 14⟩, ⟨100, 100, 100, 1, 15⟩, ⟨100, 100, 100, 1, 16⟩, ⟨100, 100, 100, 1, 17⟩, ⟨100, 100, 100, 1, 18⟩, ⟨110, 110, 110, 1, 19⟩] : List TrendDetector.Candle).map (fun c => c.close)) = 5 := by
    norm_num [TrendDetector.var20, TrendDetector.sma20v]
  have hsma : TrendDetector.sma20v
      (([⟨100, 100, 100, 1, 0⟩, ⟨100, 100, 100, 1, 1⟩, ⟨100, 100, 100, 1, 2⟩, ⟨100, 100, 100, 1, 3⟩, ⟨100, 100, 100, 1, 4⟩, ⟨100, 100, 100, 1, 5⟩, ⟨100, 100, 100, 1, 6⟩, ⟨100, 100, 100, 1, 7⟩, ⟨100, 100, 100, 1, 8⟩, ⟨100, 100, 100, 1, 9⟩, ⟨100, 100, 100, 1, 10⟩, ⟨100, 100, 100, 1, 11⟩, ⟨100, 100, 100, 1, 12⟩, ⟨100, 100, 100, 1, 13⟩, ⟨100, 100, 100, 1, 14⟩, ⟨100, 100, 100, 1, 15⟩, ⟨100, 100, 100, 1, 16⟩, ⟨100, 100, 100, 1, 17⟩, ⟨100, 100, 100, 1, 18⟩, ⟨110, 110, 110, 1, 19⟩] : List TrendDetector.Candle).map (fun c => c.close)) = 201/2 := by
    norm_num [TrendDetector.sma20v]
  have hlast : (([⟨100, 100, 100, 1, 0⟩, ⟨100, 100, 100, 1, 1⟩, ⟨100, 100, 100, 1, 2⟩, ⟨100, 100, 100, 1, 3⟩, ⟨100, 100, 100, 1, 4⟩, ⟨100, 100, 100, 1, 5⟩, ⟨100, 100, 100, 1, 6⟩, ⟨100, 100, 100, 1, 7⟩, ⟨100, 100, 100, 1, 8⟩, ⟨100, 100, 100, 1, 9⟩, ⟨100, 100, 100, 1, 10⟩, ⟨100, 100, 100, 1, 11⟩, ⟨100, 100, 100, 1, 12⟩, ⟨100, 100, 100, 1, 13⟩, ⟨100, 100, 100, 1, 14⟩, ⟨100, 100, 100, 1, 15⟩, ⟨100, 100, 100, 1, 16⟩, ⟨100, 100, 100, 1, 17⟩, ⟨100, 100, 100, 1, 18⟩, ⟨110, 110, 110, 1, 19⟩] : List TrendDetector.Candle).map
      (fun c => c.close)).getLastD 0 = 110 := by decide
  rw [if_neg (by decide), hvar, hsma, hlast, if_pos (by norm_num)]
  have hs2 : Real.sqrt ((5 : ℚ) : ℝ) ^ 2 = 5 := by
    rw [show (((5 : ℚ) : ℝ)) = (5 : ℝ) by norm_num]
    rw [Real.sq_sqrt]
    norm_num
  have hs0 : 0 < Real.sqrt ((5 : ℚ) : ℝ) := by
    apply Real.sqrt_pos.mpr
    norm_num
  rw [lt_div_iff₀ (by positivity)]
  have hsbound : Real.sqrt ((5 : ℚ) : ℝ) < 19/4 :=
    (Real.sqrt_lt' (by norm_num)).mpr (by norm_num)
  push_cast
  nlinarith [hsbound, hs0]

/-- C9 amended: for a candle sequence of length at least 20,
`bollinger_position` is the unclamped normalized position of the latest
close inside the 20-period ±2-standard-deviation band: it equals 0.5
whenever the band width is zero, and when the band width is positive it
lies within [0, 1] exactly when the latest close lies inside the band —
a close outside the band puts it outside [0, 1]. -/
theorem bollinger_position_characterization (data : List TrendDetector.Candle)
    (h20 : 20 ≤ data.length) :
    (TrendDetector.detect_volatility data).lookup "bollinger_position" =
      some (TrendDetector.Val.num
        (TrendDetector.bollingerPosition (data.map (fun c => c.close)))) ∧
    (TrendDetector.var20 (data.map (fun c => c.close)) = 0 →
      TrendDetector.bollingerPosition (data.map (fun c => c.close)) = 0.5) ∧
    (0 < TrendDetector.var20 (data.map (fun c => c.close)) →
      ((0 ≤ TrendDetector.bollingerPosition (data.map (fun c => c.close)) ∧
          TrendDetector.bollingerPosition (data.map (fun c => c.close)) ≤ 1) ↔
        ((TrendDetector.sma20v (data.map (fun c => c.close)) : ℝ) -
            2 * Real.sqrt ((TrendDetector.var20 (data.map (fun c => c.close)) : ℚ) : ℝ) ≤
          (((data.map (fun c => c.close)).getLastD 0 : ℚ) : ℝ) ∧
        (((data.map (fun c => c.close)).getLastD 0 : ℚ) : ℝ) ≤
          (TrendDetector.sma20v (data.map (fun c => c.close)) : ℝ) +
            2 * Real.sqrt ((TrendDetector.var20 (data.map (fun c => c.close)) : ℚ) : ℝ)))) := by
  have hlen : ¬((data.map (fun c => c.close)).length < 20) := by
    rw [List.length_map]
    omega
  refine ⟨?_, ?_, ?_⟩
  · exact TrendDetector.detect_volatility_bollinger_entry data
      (by push_neg; exact ⟨by rintro rfl; simp at h20, by omega⟩)
  · intro hv
    unfold TrendDetector.bollingerPosition
    rw [if_neg hlen, if_neg (by rw [hv]; norm_num)]
  · intro hv
    unfold TrendDetector.bollingerPosition
    rw [if_neg hlen, if_pos hv]
    have hs0 : 0 < Real.sqrt ((TrendDetector.var20 (data.map (fun c => c.close)) : ℚ) : ℝ) := by
      apply Real.sqrt_pos.mpr
      exact_mod_cast hv
    rw [div_le_one (by positivity), le_div_iff₀ (by positivity), zero_mul]
    constructor
    · rintro ⟨h1, h2⟩
      constructor <;> linarith
    · rintro ⟨h1, h2⟩
      constructor <;> linarith

/-- C9 amended, witness on twenty flat candles: the band width is zero
and the normalized position degenerates to the midpoint 0.5. -/
theorem bollinger_position_characterization_witness :
    (TrendDetector.detect_volatility
        ([⟨100, 100, 100, 1, 0⟩, ⟨100, 100, 100, 1, 1⟩, ⟨100, 100, 100, 1, 2⟩, ⟨100, 100, 100, 1, 3⟩, ⟨100, 100, 100, 1, 4⟩, ⟨100, 100, 100, 1, 5⟩, ⟨100, 100, 100, 1, 6⟩, ⟨100, 100, 100, 1, 7⟩, ⟨100, 100, 100, 1, 8⟩, ⟨100, 100, 100, 1, 9⟩, ⟨100, 100, 100, 1, 10⟩, ⟨100, 100, 100, 1, 11⟩, ⟨100, 100, 100, 1, 12⟩, ⟨100, 100, 100, 1, 13⟩, ⟨100, 100, 100, 1, 14⟩, ⟨100, 100, 100, 1, 15⟩, ⟨100, 100, 100, 1, 16⟩, ⟨100, 100, 100, 1, 17⟩, ⟨100, 100, 100, 1, 18⟩, ⟨100, 100, 100, 1, 19⟩] : List TrendDetector.Candle)).lookup "bollinger_position" =
      some (TrendDetector.Val.num (TrendDetector.bollingerPosition
        (([⟨100, 100, 100, 1, 0⟩, ⟨100, 100, 100, 1, 1⟩, ⟨100, 100, 100, 1, 2⟩, ⟨100, 100, 100, 1, 3⟩, ⟨100, 100, 100, 1, 4⟩, ⟨100, 100, 100, 1, 5⟩, ⟨100, 100, 100, 1, 6⟩, ⟨100, 100, 100, 1, 7⟩, ⟨100, 100, 100, 1, 8⟩, ⟨100, 100, 100, 1, 9⟩, ⟨100, 100, 100, 1, 10⟩, ⟨100, 100, 100, 1, 11⟩, ⟨100, 100, 100, 1, 12⟩, ⟨100, 100, 100, 1, 13⟩, ⟨100, 100, 100, 1, 14⟩, ⟨100, 100, 100, 1, 15⟩, ⟨100, 100, 100, 1, 16⟩, ⟨100, 100, 100, 1, 17⟩, ⟨100, 100, 100, 1, 18⟩, ⟨100, 100, 100, 1, 19⟩] : List TrendDetector.Candle).map (fun c => c.close)))) ∧
    (TrendDetector.var20
        (([⟨100, 100, 100, 1, 0⟩, ⟨100, 100, 100, 1, 1⟩, ⟨100, 100, 100, 1, 2⟩, ⟨100, 100, 100, 1, 3⟩, ⟨100, 100, 100, 1, 4⟩, ⟨100, 100, 100, 1, 5⟩, ⟨100, 100, 100, 1, 6⟩, ⟨100, 100, 100, 1, 7⟩, ⟨100, 100, 100, 1, 8⟩, ⟨100, 100, 100, 1, 9⟩, ⟨100, 100, 100, 1, 10⟩, ⟨100, 100, 100, 1, 11⟩, ⟨100, 100, 100, 1, 12⟩, ⟨100, 100, 100, 1, 13⟩, ⟨100, 100, 100, 1, 14⟩, ⟨100, 100, 100, 1, 15⟩, ⟨100, 100, 100, 1, 16⟩, ⟨100, 100, 100, 1, 17⟩, ⟨100, 100, 100, 1, 18⟩, ⟨100, 100, 100, 1, 19⟩] : List TrendDetector.Candle).map (fun c => c.close)) = 0 →
      TrendDetector.bollingerPosition
        (([⟨100, 100, 100, 1, 0⟩, ⟨100, 100, 100, 1, 1⟩, ⟨100, 100, 100, 1, 2⟩, ⟨100, 100, 100, 1, 3⟩, ⟨100, 100, 100, 1, 4⟩, ⟨100, 100, 100, 1, 5⟩, ⟨100, 100, 100, 1, 6⟩, ⟨100, 100, 100, 1, 7⟩, ⟨100, 100, 100, 1, 8⟩, ⟨100, 100, 100, 1, 9⟩, ⟨100, 100, 100, 1, 10⟩, ⟨100, 100, 100, 1, 11⟩, ⟨100, 100, 100, 1, 12⟩, ⟨100, 100, 100, 1, 13⟩, ⟨100, 100, 100, 1, 14⟩, ⟨100, 100, 100, 1, 15⟩, ⟨100, 100, 100, 1, 16⟩, ⟨100, 100, 100, 1, 17⟩, ⟨100, 100, 100, 1, 18⟩, ⟨100, 100, 100, 1, 19⟩] : List TrendDetector.Candle).map (fun c => c.close)) = 0.5) :=
  ⟨(bollinger_position_characterization ([⟨100, 100, 100, 1, 0⟩, ⟨100, 100, 100, 1, 1⟩, ⟨100, 100, 100, 1, 2⟩, ⟨100, 100, 100, 1, 3⟩, ⟨100, 100, 100, 1, 4⟩, ⟨100, 100, 100, 1, 5⟩, ⟨100, 100, 100, 1, 6⟩, ⟨100, 100, 100, 1, 7⟩, ⟨100, 100, 100, 1, 8⟩, ⟨100, 100, 100, 1, 9⟩, ⟨100, 100, 100, 1, 10⟩, ⟨100, 100, 100, 1, 11⟩, ⟨100, 100, 100, 1, 12⟩, ⟨100, 100, 100, 1, 13⟩, ⟨100, 100, 100, 1, 14⟩, ⟨100, 100, 100, 1, 15⟩, ⟨100, 100, 100, 1, 16⟩, ⟨100, 100, 100, 1, 17⟩, ⟨100, 100, 100, 1, 18⟩, ⟨100, 100, 100, 1, 19⟩] : List TrendDetector.Candle)
      (by decide)).1,
   (bollinger_position_characterization ([⟨100, 100, 100, 1, 0⟩, ⟨100, 100, 100, 1, 1⟩, ⟨100, 100, 100, 1, 2⟩, ⟨100, 100, 100, 1, 3⟩, ⟨100, 100, 100, 1, 4⟩, ⟨100, 100, 100, 1, 5⟩, ⟨100, 100, 100, 1, 6⟩, ⟨100, 100, 100, 1, 7⟩, ⟨100, 100, 100, 1, 8⟩, ⟨100, 100, 100, 1, 9⟩, ⟨100, 100, 100, 1, 10⟩, ⟨100, 100, 100, 1, 11⟩, ⟨100, 100, 100, 1, 12⟩, ⟨100, 100, 100, 1, 13⟩, ⟨100, 100, 100, 1, 14⟩, ⟨100, 100, 100, 1, 15⟩, ⟨100, 100, 100, 1, 16⟩, ⟨100, 100, 100, 1, 17⟩, ⟨100, 100, 100, 1, 18⟩, ⟨100, 100, 100, 1, 19⟩] : List TrendDetector.Candle)
      (by decide)).2.1⟩

namespace Store

theorem orderedInsert_zrev_eq_tsGe {α : Type} [LinearOrder α] (a : Entry α) :
    ∀ (m : List (Entry α)), (∀ e ∈ m, e.2 ≠ a.2) →
      m.orderedInsert zrevLt a = m.orderedInsert tsGe a := by
  intro m
  induction m with
  | nil => intro _; rfl
  | cons b m ih =>
    intro hne
    have hb : b.2 ≠ a.2 := hne b (List.mem_cons_self b m)
    simp only [List.orderedInsert]
    by_cases h : b.2 ≤ a.2
    · have hlt : b.2 < a.2 := lt_of_le_of_ne h hb
      rw [if_pos (show zrevLt a b from Or.inl hlt), if_pos (show tsGe a b from h)]
    · have h1 : ¬zrevLt a b := by
        intro hz
        rcases hz with hz | hz
        · exact h (le_of_lt hz)
        · exact hb hz.1.symm
      rw [if_neg h1, if_neg (show ¬tsGe a b from h),
        ih (fun e he => hne e (List.mem_cons_of_mem b he))]

theorem insertionSort_zrev_eq_tsGe {α : Type} [LinearOrder α] :
    ∀ (l : List (Entry α)), (l.map Prod.snd).Nodup →
      l.insertionSort zrevLt = l.insertionSort tsGe := by
  intro l
  induction l with
  | nil => intro _; rfl
  | cons a l ih =>
    intro hnd
    rw [List.map_cons] at hnd
    obtain ⟨hnotin, hnd2⟩ := List.nodup_cons.mp hnd
    rw [List.insertionSort, List.insertionSort, ih hnd2]
    apply orderedInsert_zrev_eq_tsGe
    intro e he hea
    apply hnotin
    rw [← hea]
    exact List.mem_map_of_mem Prod.snd (by simpa using he)

theorem orderedInsert_row_map {α : Type} (r : Row α) :
    ∀ (m : List (Row α)),
      (m.orderedInsert rowGe r).map (fun r => ((r.payload, r.ts) : Entry α)) =
        (m.map (fun r => ((r.payload, r.ts) : Entry α))).orderedInsert tsGe
          (r.payload, r.ts) := by
  intro m
  induction m with
  | nil => rfl
  | cons b m ih =>
    simp only [List.orderedInsert, List.map_cons]
    by_cases h : rowGe r b
    · rw [if_pos h, if_pos (show tsGe (r.payload, r.ts) (b.payload, b.ts) from h)]
      simp
    · rw [if_neg h, if_neg (show ¬tsGe (r.payload, r.ts) (b.payload, b.ts) from h)]
      rw [List.map_cons, ih]

theorem insertionSort_row_map {α : Type} :
    ∀ (rows : List (Row α)),
      (rows.insertionSort rowGe).map (fun r => ((r.payload, r.ts) : Entry α)) =
        (rows.map (fun r => ((r.payload, r.ts) : Entry α))).insertionSort tsGe := by
  intro rows
  induction rows with
  | nil => rfl
  | cons r rows ih =>
    rw [List.insertionSort, List.map_cons, List.insertionSort, ← ih]
    exact orderedInsert_row_map r _

theorem redis_foldl_characterize {α : Type} [DecidableEq α] (iv : String) :
    ∀ (stores : List (α × ℤ)) (k : RedisKey α),
      (∀ e ∈ k.zset, ∀ pt ∈ stores, e.1 ≠ pt.1 ∧ e.2 < pt.2) →
      (stores.map Prod.fst).Nodup →
      stores.Pairwise (fun a b => a.2 < b.2) →
      stores.Chain' (fun a b => b.2 < a.2 + ttl_multiplier iv) →
      (∀ pt ∈ stores.head?, k.zset = [] ∨ pt.2 < k.expireAt) →
      (stores.foldl (fun k pt => redis_store_crypto_data k pt.1 pt.2 iv) k).zset =
          k.zset ++ stores ∧
        ∀ lp ∈ stores.getLast?,
          (stores.foldl (fun k pt => redis_store_crypto_data k pt.1 pt.2 iv)
            k).expireAt = lp.2 + ttl_multiplier iv := by
  intro stores
  induction stores with
  | nil =>
    intro k _ _ _ _ _
    refine ⟨by simp, ?_⟩
    intro lp hlp
    cases hlp
  | cons pt rest ih =>
    intro k hk hnd hpw hch hhead
    rw [List.map_cons] at hnd
    obtain ⟨hp_notin, hnd_rest⟩ := List.nodup_cons.mp hnd
    have hbase : (if pt.2 < k.expireAt then k.zset else []) = k.zset := by
      rcases hhead pt rfl with hz | hlive
      · rw [hz]
        split <;> rfl
      · rw [if_pos hlive]
    have hnomem : ¬∃ e ∈ k.zset, e.1 = pt.1 := by
      rintro ⟨e, he, heq⟩
      exact (hk e he pt (List.mem_cons_self pt rest)).1 heq
    have hzset : (redis_store_crypto_data k pt.1 pt.2 iv).zset = k.zset ++ [pt] := by
      show zadd (if pt.2 < k.expireAt then k.zset else []) pt.1 pt.2 = _
      rw [hbase]
      unfold zadd
      rw [if_neg hnomem]
    have hexp : (redis_store_crypto_data k pt.1 pt.2 iv).expireAt =
        pt.2 + ttl_multiplier iv := rfl
    set kp := redis_store_crypto_data k pt.1 pt.2 iv with hkp
    have hk2 : ∀ e ∈ kp.zset, ∀ q ∈ rest, e.1 ≠ q.1 ∧ e.2 < q.2 := by
      intro e he q hq
      rw [hzset] at he
      rcases List.mem_append.mp he with he | he
      · exact hk e he q (List.mem_cons_of_mem pt hq)
      · rw [List.mem_singleton.mp he]
        constructor
        · intro hfst
          exact hp_notin (by rw [hfst]; exact List.mem_map_of_mem Prod.fst hq)
        · exact (List.pairwise_cons.mp hpw).1 q hq
    have hhead2 : ∀ q ∈ rest.head?, kp.zset = [] ∨ q.2 < kp.expireAt := by
      intro q hq
      right
      rw [hkp, hexp]
      cases rest with
      | nil => cases hq
      | cons q0 rest2 =>
        cases hq
        exact (List.chain'_cons.mp hch).1
    obtain ⟨ihz, ihe⟩ := ih kp hk2 hnd_rest (List.pairwise_cons.mp hpw).2
      (List.Chain'.tail hch) hhead2
    constructor
    · show (rest.foldl (fun k pt => redis_store_crypto_data k pt.1 pt.2 iv) kp).zset = _
      rw [ihz, hkp, hzset, List.append_assoc]
      rfl
    · intro lp hlp
      cases rest with
      | nil =>
        cases hlp
        show kp.expireAt = _
        rw [hexp]
        simp
      | cons q0 rest2 =>
        rw [List.getLast?_cons_cons] at hlp
        exact ihe lp hlp

theorem sqlite_foldl_characterize {α : Type} (s i : String) :
    ∀ (stores : List (α × ℤ)) (T : List (Row α)),
      (∀ r ∈ T, r.symbol = s → r.interval = i → ∀ pt ∈ stores, r.ts ≠ pt.2) →
      stores.Pairwise (fun a b => a.2 < b.2) →
      stores.foldl
          (fun (acc : Except Unit (List (Row α))) pt =>
            acc.bind (fun T => sqlite_store_crypto_data T s i pt.1 pt.2))
          (.ok T) =
        .ok (T ++ stores.map (fun pt => ⟨s, i, pt.2, pt.1⟩)) := by
  intro stores
  induction stores with
  | nil =>
    intro T _ _
    simp
  | cons pt rest ih =>
    intro T hT hpw
    have hok : sqlite_store_crypto_data T s i pt.1 pt.2 =
        .ok (T ++ [⟨s, i, pt.2, pt.1⟩]) := by
      unfold sqlite_store_crypto_data
      rw [if_neg]
      rintro ⟨r, hr, h1, h2, h3⟩
      exact hT r hr h1 h2 pt (List.mem_cons_self pt rest) h3
    show List.foldl _ ((Except.ok T).bind
        (fun T => sqlite_store_crypto_data T s i pt.1 pt.2)) rest = _
    rw [show (Except.ok T).bind
        (fun T => sqlite_store_crypto_data T s i pt.1 pt.2) =
        sqlite_store_crypto_data T s i pt.1 pt.2 from rfl, hok]
    have hT2 : ∀ r ∈ T ++ [(⟨s, i, pt.2, pt.1⟩ : Row α)],
        r.symbol = s → r.interval = i → ∀ q ∈ rest, r.ts ≠ q.2 := by
      intro r hr h1 h2 q hq
      rcases List.mem_append.mp hr with hr | hr
      · exact hT r hr h1 h2 q (List.mem_cons_of_mem pt hq)
      · rw [List.mem_singleton.mp hr]
        show pt.2 ≠ q.2
        exact ne_of_lt ((List.pairwise_cons.mp hpw).1 q hq)
    have hstep := ih (T ++ [⟨s, i, pt.2, pt.1⟩]) hT2 (List.pairwise_cons.mp hpw).2
    rw [hstep, List.map_cons, List.append_assoc]
    rfl

end Store

/-- C3 counterexample: the claim fails on the code. Executing the same two
store_crypto_data calls — the identical payload at arrival seconds 100 and
200 — against both backends and then reading, SQLite returns two records
while Redis returns one: the second `ZADD` of the identical member only
updated its score, so the backends are not interchangeable. -/
theorem identical_payload_breaks_backend_equivalence :
    Store.sqlite_run_stores "BTC" "1m" [((7 : ℕ), (100 : ℤ)), (7, 200)] =
      .ok [⟨"BTC", "1m", 100, 7⟩, ⟨"BTC", "1m", 200, 7⟩] ∧
    Store.sqlite_get_crypto_data
        ([⟨"BTC", "1m", 100, 7⟩, ⟨"BTC", "1m", 200, 7⟩] : List (Store.Row ℕ))
        "BTC" "1m" 10 = [(7, 100), (7, 200)] ∧
    Store.redis_get_crypto_data
        (Store.redis_run_stores "1m" [((7 : ℕ), (100 : ℤ)), (7, 200)]) 200 10 =
      [(7, 200)] ∧
    Store.redis_get_crypto_data
        (Store.redis_run_stores "1m" [((7 : ℕ), (100 : ℤ)), (7, 200)]) 200 10 ≠
      Store.sqlite_get_crypto_data
        ([⟨"BTC", "1m", 100, 7⟩, ⟨"BTC", "1m", 200, 7⟩] : List (Store.Row ℕ))
        "BTC" "1m" 10 := by
  refine ⟨rfl, by decide, by decide, by decide⟩

/-- C3 amended: the two backends agree on the crypto series reads for
every sequence of store_crypto_data calls to one (symbol, interval) key in
which arrival seconds strictly increase, consecutive stores stay within
the tier TTL of each other, payloads are pairwise distinct, and the read
happens while the Redis key is alive: under these conditions the SQLite
run succeeds and both reads return the same list. Full interchangeability
fails (see the counterexample): repeated identical payloads, two stores
within one second, or reads after the Redis TTL diverge. -/
theorem backends_agree_on_crypto_series {α : Type} [DecidableEq α] [LinearOrder α]
    (s i iv : String) (stores : List (α × ℤ)) (now : ℤ) (limit : ℕ)
    (hlt : stores.Pairwise (fun a b => a.2 < b.2))
    (httl : stores.Chain' (fun a b => b.2 < a.2 + Store.ttl_multiplier iv))
    (hpay : (stores.map Prod.fst).Nodup)
    (hne : stores ≠ [])
    (hlive : ∀ lp ∈ stores.getLast?, now < lp.2 + Store.ttl_multiplier iv)
    (_hlim : 1 ≤ limit) :
    ∃ T, Store.sqlite_run_stores s i stores = .ok T ∧
      Store.redis_get_crypto_data (Store.redis_run_stores iv stores) now limit =
        Store.sqlite_get_crypto_data T s i limit := by
  refine ⟨stores.map (fun pt => (⟨s, i, pt.2, pt.1⟩ : Store.Row α)), ?_, ?_⟩
  · unfold Store.sqlite_run_stores
    have hchar := Store.sqlite_foldl_characterize s i stores []
      (by intro r hr; cases hr) hlt
    simpa using hchar
  · obtain ⟨hz, hexp⟩ := Store.redis_foldl_characterize iv stores Store.RedisKey.empty
      (by intro e he; cases he) hpay hlt httl (by intro pt hpt; left; rfl)
    have hzset : (Store.redis_run_stores iv stores).zset = stores := by
      unfold Store.redis_run_stores
      rw [hz]
      rfl
    obtain ⟨lp, hlp⟩ : ∃ lp, stores.getLast? = some lp := by
      cases hcase : stores.getLast? with
      | none => exact absurd (List.getLast?_eq_none_iff.mp hcase) hne
      | some lp => exact ⟨lp, rfl⟩
    have hexp2 : (Store.redis_run_stores iv stores).expireAt =
        lp.2 + Store.ttl_multiplier iv := hexp lp hlp
    have hsnd : (stores.map Prod.snd).Nodup := by
      have hpw2 : (stores.map Prod.snd).Pairwise (· < ·) :=
        List.pairwise_map.mpr hlt
      exact hpw2.imp ne_of_lt
    unfold Store.redis_get_crypto_data Store.sqlite_get_crypto_data
    rw [if_pos (by rw [hexp2]; exact hlive lp hlp)]
    dsimp only
    have hfil : (stores.map (fun pt => (⟨s, i, pt.2, pt.1⟩ : Store.Row α))).filter
        (fun r => decide (r.symbol = s ∧ r.interval = i)) =
        stores.map (fun pt => (⟨s, i, pt.2, pt.1⟩ : Store.Row α)) := by
      rw [List.filter_eq_self]
      intro r hr
      obtain ⟨pt, hpt, rfl⟩ := List.mem_map.mp hr
      simp
    rw [hfil, hzset, Store.insertionSort_zrev_eq_tsGe stores hsnd, List.map_take,
      Store.insertionSort_row_map]
    have hTf : (stores.map (fun pt => (⟨s, i, pt.2, pt.1⟩ : Store.Row α))).map
        (fun r => ((r.payload, r.ts) : Store.Entry α)) = stores := by
      rw [List.map_map]
      have hcomp : ((fun r : Store.Row α => ((r.payload, r.ts) : Store.Entry α)) ∘
          (fun pt : α × ℤ => (⟨s, i, pt.2, pt.1⟩ : Store.Row α))) =
          (fun pt : α × ℤ => pt) := by
        funext pt
        rfl
      rw [hcomp, List.map_id']
    rw [hTf]

/-- C3 amended, witness: two distinct payloads stored at seconds 100 and
200 under the "1m" tier and read at second 300 give the same list on both
backends. -/
theorem backends_agree_on_crypto_series_witness :
    ∃ T, Store.sqlite_run_stores "BTC" "1m" [((7 : ℕ), (100 : ℤ)), (8, 200)] = .ok T ∧
      Store.redis_get_crypto_data
          (Store.redis_run_stores "1m" [((7 : ℕ), (100 : ℤ)), (8, 200)]) 300 10 =
        Store.sqlite_get_crypto_data T "BTC" "1m" 10 :=
  backends_agree_on_crypto_series "BTC" "1m" "1m" [(7, 100), (8, 200)] 300 10
    (by decide)
    (List.chain'_cons.mpr ⟨by decide, List.chain'_singleton _⟩)
    (by decide) (by decide)
    (by intro lp hlp; cases hlp; decide) (by decide)
